import Mathlib

/-!
# goma-gateway middleware: a shallow embedding

Embedding of `internal/middleware/middleware.go` and
`internal/middleware/rate-limit.go`.

* Go `string` values are byte sequences: `Str = List Byte`.
* `http.Header` is a Go map from canonical key to the list of values.  It is
  embedded as an association list whose order is the (unspecified) iteration
  order of the map.
* A handler is a function from its inputs (configuration, request, results of
  the external calls it makes) to an `Outcome`: the state of the response
  writer, the requests handed to `next.ServeHTTP` and the outbound calls made.
-/

namespace Goma

/-! ## Strings -/

abbrev Byte := Fin 256

/-- Go `string`: a sequence of bytes. -/
abbrev Str := List Byte

/-- ASCII text as a Go string (code points taken modulo 256). -/
def ascii (s : String) : Str := s.toList.map (fun c => Fin.ofNat c.toNat)

/-- Go `strings.HasPrefix`. -/
def hasPrefix (s pre : Str) : Bool := pre.isPrefixOf s

/-- Go `strings.SplitN(s, ":", 2)`: cut at the first colon (byte 58) when there
is one, otherwise the string itself is the only part. -/
def splitN2 (s : Str) : List Str :=
  match s.dropWhile (fun c => c != 58) with
  | [] => [s]
  | _ :: post => [s.takeWhile (fun c => c != 58), post]

/-! ## http.Header -/

/-- Go `textproto.validHeaderFieldByte`: the token characters of RFC 7230. -/
def validHeaderFieldByte (c : Byte) : Bool :=
  (48 ≤ c.val && c.val ≤ 57) || (97 ≤ c.val && c.val ≤ 122) || (65 ≤ c.val && c.val ≤ 90)
    || c.val = 33 || c.val = 35 || c.val = 36 || c.val = 37 || c.val = 38 || c.val = 39
    || c.val = 42 || c.val = 43 || c.val = 45 || c.val = 46 || c.val = 94 || c.val = 95
    || c.val = 96 || c.val = 124 || c.val = 126

/-- The rewriting loop of Go `textproto.canonicalMIMEHeaderKey`: upper case
for the first letter and for a letter after a dash (byte 45), lower case for
the other letters. -/
def canonLoop : Bool → Str → Str
  | _, [] => []
  | upper, c :: rest =>
    let c1 : Byte :=
      if upper && (97 ≤ c.val && c.val ≤ 122) then Fin.ofNat (c.val - 32)
      else if !upper && (65 ≤ c.val && c.val ≤ 90) then Fin.ofNat (c.val + 32)
      else c
    c1 :: canonLoop (c1.val = 45) rest

/-- Go `textproto.CanonicalMIMEHeaderKey`: a key holding a byte that is not a
token character is returned unchanged, any other key is canonicalised. -/
def CanonicalMIMEHeaderKey (s : Str) : Str :=
  if s.all validHeaderFieldByte then canonLoop true s else s

/-- Go map assignment `m[k] = v` on a map held in iteration order: the entry
of an existing key is replaced, a new key gets a new entry. -/
def mapSet {β : Type} : List (Str × β) → Str → β → List (Str × β)
  | [], k, v => [(k, v)]
  | e :: m, k, v => if e.1 = k then (k, v) :: m else e :: mapSet m k v

/-- Go `http.Header` (`map[string][]string`), in iteration order. -/
abbrev Header := List (Str × List Str)

/-- Go map lookup `h[key]`, the zero value (nil slice) when absent. -/
def Header.values (h : Header) (key : Str) : List Str :=
  (h.lookup key).getD []

/-- Go `Header.Get`: the first value of the canonical key, or "". -/
def Header.Get (h : Header) (key : Str) : Str :=
  (Header.values h (CanonicalMIMEHeaderKey key)).headD []

/-- Go `Header.Set`: `h[CanonicalMIMEHeaderKey(key)] = []string{value}`. -/
def Header.Set (h : Header) (key value : Str) : Header :=
  mapSet h (CanonicalMIMEHeaderKey key) [value]

/-! ## url.Values -/

/-- Go `url.Values` (`map[string][]string`), in iteration order. -/
abbrev Values := List (Str × List Str)

/-- Go `url.ishex`. -/
def ishex (c : Byte) : Bool :=
  (48 ≤ c.val && c.val ≤ 57) || (97 ≤ c.val && c.val ≤ 102) || (65 ≤ c.val && c.val ≤ 70)

/-- Go `url.unhex`. -/
def unhex (c : Byte) : Nat :=
  if 48 ≤ c.val ∧ c.val ≤ 57 then c.val - 48
  else if 97 ≤ c.val ∧ c.val ≤ 102 then c.val - 97 + 10
  else if 65 ≤ c.val ∧ c.val ≤ 70 then c.val - 65 + 10
  else 0

/-- Go `url.QueryUnescape`: `%XY` is the byte with hex digits X and Y, `+` is
a space; `none` is the `EscapeError` for a `%` not followed by two hex
digits. -/
def QueryUnescape : Str → Option Str
  | [] => some []
  | c :: rest =>
    if c = 37 then
      match rest with
      | h1 :: h2 :: rest2 =>
        if ishex h1 && ishex h2 then
          (QueryUnescape rest2).map (fun out => Fin.ofNat (unhex h1 * 16 + unhex h2) :: out)
        else none
      | _ => none
    else if c = 43 then (QueryUnescape rest).map (fun out => (32 : Byte) :: out)
    else (QueryUnescape rest).map (fun out => c :: out)

/-- Go `url.shouldEscape(c, encodeQueryComponent)`: only letters, digits and
`-`, `_`, `.`, `~` are left as they are. -/
def shouldEscape (c : Byte) : Bool :=
  !((97 ≤ c.val && c.val ≤ 122) || (65 ≤ c.val && c.val ≤ 90) || (48 ≤ c.val && c.val ≤ 57)
    || c.val = 45 || c.val = 95 || c.val = 46 || c.val = 126)

/-- The table `upperhex` of Go: the digit of a value below 16. -/
def upperhex (n : Nat) : Byte :=
  if n < 10 then Fin.ofNat (n + 48) else Fin.ofNat (n + 55)

/-- What Go `url.QueryEscape` writes for one byte: `+` for a space, `%XY` for
a byte to escape, the byte itself otherwise. -/
def escapeByte (c : Byte) : Str :=
  if c = 32 then [43]
  else if shouldEscape c then [37, upperhex (c.val / 16), upperhex (c.val % 16)]
  else [c]

/-- Go `url.QueryEscape`. -/
def QueryEscape (s : Str) : Str := s.flatMap escapeByte

/-- The pieces of a raw query between the `&` separators (byte 38), as the loop
of Go `url.parseQuery` takes them with `strings.Cut(query, "&")`. -/
def splitAmp : Str → List Str
  | [] => [[]]
  | c :: rest =>
    if c = 38 then [] :: splitAmp rest
    else
      match splitAmp rest with
      | seg :: segs => (c :: seg) :: segs
      | [] => [[c]]

/-- The body of the loop of Go `url.parseQuery` for one piece: a piece with a
`;` (byte 59), an empty piece, and a piece whose key or value does not
unescape are skipped (`none`); otherwise the piece is cut at its first `=`
(byte 61) and both halves are unescaped. -/
def parseSegment (seg : Str) : Option (Str × Str) :=
  if (59 : Byte) ∈ seg then none
  else if seg = [] then none
  else
    match QueryUnescape (seg.takeWhile (fun c => c != 61)) with
    | none => none
    | some key =>
      match QueryUnescape ((seg.dropWhile (fun c => c != 61)).drop 1) with
      | none => none
      | some value => some (key, value)

/-- The pairs that Go `url.ParseQuery` accepts in a raw query, in order. -/
def rawPairs (query : Str) : List (Str × Str) :=
  (splitAmp query).filterMap parseSegment

/-- Go `URL.Query()`, that is `url.ParseQuery` with its error dropped:
`m[key] = append(m[key], value)` for each accepted pair in order. -/
def ParseQuery (query : Str) : Values :=
  (rawPairs query).foldl (fun m p => mapSet m p.1 ((m.lookup p.1).getD [] ++ [p.2])) []

/-- Go `Values.Set`: `v[key] = []string{value}`. -/
def Values.Set (v : Values) (key value : Str) : Values :=
  mapSet v key [value]

/-- The pairs that Go `Values.Encode` writes: the keys sorted, and for each key
its values in order. -/
def sortedPairs (v : Values) : List (Str × Str) :=
  ((v.map Prod.fst).insertionSort (fun a b => a ≤ b)).flatMap
    (fun k => ((v.lookup k).getD []).map (fun x => (k, x)))

/-- The writes of Go `Values.Encode` to its buffer: for each pair an `&` when
the buffer is not empty, then the escaped key, `=`, and the escaped value. -/
def writePairs (buf : Str) (pairs : List (Str × Str)) : Str :=
  pairs.foldl
    (fun buf p =>
      (if buf ≠ [] then buf ++ [38] else buf) ++ QueryEscape p.1 ++ 61 :: QueryEscape p.2)
    buf

/-- Go `Values.Encode`. -/
def Values.Encode (v : Values) : Str := writePairs [] (sortedPairs v)

/-- The text `Values.Encode` writes for one pair. -/
def encodeSegment (p : Str × Str) : Str := QueryEscape p.1 ++ 61 :: QueryEscape p.2

/-- The values of `name` among pairs, in order. -/
def pairValues (q : List (Str × Str)) (name : Str) : List Str :=
  (q.filter (fun p => p.1 = name)).map Prod.snd

/-- The values of parameter `name` in a raw query, in order:
`url.ParseQuery(query)[name]`. -/
def queryValues (query : Str) (name : Str) : List Str :=
  pairValues (rawPairs query) name

/-! ## Requests, response writer, outcome -/

/-- The parts of `*http.Request` that the middlewares read or write;
`RawQuery` is `r.URL.RawQuery`. -/
structure Request where
  Method : Str
  Path : Str
  RawQuery : Str
  Header : Header
  deriving DecidableEq, Repr

/-- The `ProxyResponseError` JSON envelope. -/
structure ProxyResponseError where
  Success : Bool
  Code : Nat
  Message : String
  deriving DecidableEq, Repr

/-- What a handler writes to the body of the response. -/
inductive Body where
  | json (e : ProxyResponseError)
  | text (s : String)
  deriving DecidableEq, Repr

/-- The `http.ResponseWriter` as the handler leaves it. -/
structure ResponseWriter where
  header : Header := []
  status : Option Nat := none
  body : List Body := []
  deriving DecidableEq, Repr

/-- Go `w.Header().Set(key, value)`. -/
def ResponseWriter.setHeader (w : ResponseWriter) (key value : Str) : ResponseWriter :=
  { w with header := Header.Set w.header key value }

/-- Go `w.WriteHeader(code)`: the first status written is the one sent. -/
def ResponseWriter.WriteHeader (w : ResponseWriter) (code : Nat) : ResponseWriter :=
  match w.status with
  | none => { w with status := some code }
  | some _ => w

/-- Go `w.Write`: an implicit `WriteHeader(200)` when no status was written. -/
def ResponseWriter.write (w : ResponseWriter) (b : Body) : ResponseWriter :=
  let w1 := ResponseWriter.WriteHeader w 200
  { w1 with body := w1.body ++ [b] }

/-- Go `json.NewEncoder(w).Encode(e)` for a `ProxyResponseError`. -/
def ResponseWriter.encode (w : ResponseWriter) (e : ProxyResponseError) : ResponseWriter :=
  ResponseWriter.write w (Body.json e)

/-! ## encoding/base64, StdEncoding -/

/-- Go `Encoding.decodeMap` of `StdEncoding`: the sextet of an alphabet byte,
`none` where the Go table holds 0xff. -/
def decodeMap (c : Byte) : Option Nat :=
  if 65 ≤ c.val ∧ c.val ≤ 90 then some (c.val - 65)
  else if 97 ≤ c.val ∧ c.val ≤ 122 then some (c.val - 71)
  else if 48 ≤ c.val ∧ c.val ≤ 57 then some (c.val + 4)
  else if c.val = 43 then some 62
  else if c.val = 47 then some 63
  else none

/-- The loops of `decodeQuantum` that skip over newlines (bytes 10 and 13). -/
def skipNewlines : Str → Str
  | [] => []
  | c :: rest => if c = 10 ∨ c = 13 then skipNewlines rest else c :: rest

/-- The 24-bit value assembled from the sextets of a quantum (missing sextets
are 0, as in the zeroed `dbuf`). -/
def quantumVal (q : List Nat) : Nat :=
  q.getD 0 0 * 262144 + q.getD 1 0 * 4096 + q.getD 2 0 * 64 + q.getD 3 0

/-- The `dlen - 1` bytes that `decodeQuantum` stores for a quantum of `dlen`
sextets. -/
def quantumBytes (q : List Nat) : Str :=
  let val := quantumVal q
  ([Fin.ofNat (val / 65536), Fin.ofNat (val / 256), Fin.ofNat val] : Str).take (q.length - 1)

/-- Go `StdEncoding.Decode`, as the repetition of `decodeQuantum` (padding
character 61, not strict): `q` holds the sextets read so far in the current
quantum; `none` is a `CorruptInputError`. -/
def decodeFrom : Str → List Nat → Option Str
  | [], q => if q.length = 0 then some [] else none
  | c :: rest, q =>
    match decodeMap c with
    | some s =>
      if q.length = 3 then (decodeFrom rest []).map (fun out => quantumBytes (q ++ [s]) ++ out)
      else decodeFrom rest (q ++ [s])
    | none =>
      if c = 10 ∨ c = 13 then decodeFrom rest q
      else if c ≠ 61 then none
      else if q.length < 2 then none
      else if q.length = 2 then
        match skipNewlines rest with
        | [] => none
        | c2 :: rest2 =>
          if c2 ≠ 61 then none
          else if skipNewlines rest2 ≠ [] then none
          else some (quantumBytes q)
      else
        if skipNewlines rest ≠ [] then none else some (quantumBytes q)

/-- Go `base64.StdEncoding.DecodeString`. -/
def DecodeString (s : Str) : Option Str := decodeFrom s []

/-- The alphabet of `StdEncoding`: the byte of a sextet. -/
def encodeStd (s : Nat) : Byte :=
  if s < 26 then Fin.ofNat (s + 65)
  else if s < 52 then Fin.ofNat (s + 71)
  else if s < 62 then Fin.ofNat (s - 4)
  else if s = 62 then 43
  else 47

/-- The standard padded base64 encoding (RFC 4648, Go `EncodeToString`). -/
def EncodeToString : Str → Str
  | a :: b :: c :: rest =>
    let val := a.val * 65536 + b.val * 256 + c.val
    encodeStd (val / 262144 % 64) :: encodeStd (val / 4096 % 64) :: encodeStd (val / 64 % 64)
      :: encodeStd (val % 64) :: EncodeToString rest
  | [a, b] =>
    let val := a.val * 65536 + b.val * 256
    [encodeStd (val / 262144 % 64), encodeStd (val / 4096 % 64), encodeStd (val / 64 % 64), 61]
  | [a] =>
    let val := a.val * 65536
    [encodeStd (val / 262144 % 64), encodeStd (val / 4096 % 64), 61, 61]
  | [] => []

/-! ## Outcome of a handler -/

/-- The outbound request built for the authentication service. -/
structure AuthRequest where
  Method : Str
  URL : Str
  Header : Header
  deriving DecidableEq, Repr

/-- What running a handler on one request does. -/
structure Outcome where
  /-- The response writer after the writes of the handler itself. -/
  w : ResponseWriter := {}
  /-- The requests passed to `next.ServeHTTP`, in order. -/
  next : List Request := []
  /-- The requests sent with `client.Do`, in order. -/
  outbound : List AuthRequest := []
  /-- Whether the deferred `authResp.Body.Close()` was registered, and so runs
  when the handler returns. -/
  bodyClosed : Bool := false
  deriving DecidableEq, Repr

/-! ## AuthBasic.AuthMiddleware -/

/-- The `AuthBasic` configuration. -/
structure AuthBasic where
  Username : Str
  Password : Str
  deriving DecidableEq, Repr

/-- Go `http.StatusText(http.StatusUnauthorized)`. -/
def statusText401 : String := "Unauthorized"

/-- The envelope `ProxyResponseError{Success: false, Code: 401, Message: StatusText(401)}`. -/
def unauthorizedBody : ProxyResponseError :=
  { Success := false, Code := 401, Message := statusText401 }

def hAuthorization : Str := ascii "Authorization"
def hWWWAuthenticate : Str := ascii "WWW-Authenticate"
def hContentType : Str := ascii "Content-Type"
def vBasicRealm : Str := ascii "Basic realm=\"Restricted\""
def vApplicationJSON : Str := ascii "application/json"
def basicPrefix : Str := ascii "Basic "

/-- The handler returned by `AuthBasic.AuthMiddleware`. -/
def AuthBasic.AuthMiddleware (basicAuth : AuthBasic) (r : Request) : Outcome :=
  let w : ResponseWriter := {}
  let authHeader := Header.Get r.Header hAuthorization
  if authHeader = [] then
    let w := w.setHeader hWWWAuthenticate vBasicRealm
    let w := w.setHeader hContentType vApplicationJSON
    let w := w.WriteHeader 401
    { w := w.encode unauthorizedBody }
  else if !hasPrefix authHeader basicPrefix then
    let w := w.setHeader hContentType vApplicationJSON
    let w := w.WriteHeader 401
    { w := w.encode unauthorizedBody }
  else
    match DecodeString (authHeader.drop basicPrefix.length) with
    | none =>
      let w := w.setHeader hContentType vApplicationJSON
      let w := w.WriteHeader 401
      { w := w.encode unauthorizedBody }
    | some payload =>
      let pair := splitN2 payload
      if pair.length ≠ 2 ∨ pair.getD 0 [] ≠ basicAuth.Username
          ∨ pair.getD 1 [] ≠ basicAuth.Password then
        let w := w.setHeader hWWWAuthenticate vBasicRealm
        let w := w.setHeader hContentType vApplicationJSON
        let w := w.WriteHeader 401
        { w := w.encode unauthorizedBody }
      else
        { w := w, next := [r] }

/-! ## JwtAuth.AuthMiddleware -/

/-- The `JwtAuth` configuration.  `Headers` and `Params` are Go maps from a
header of the authentication response to a header (a query parameter) of the
forwarded request: `none` is the nil map, the list is in iteration order. -/
structure JwtAuth where
  AuthURL : Str
  RequiredHeaders : List Str
  Headers : Option (List (Str × Str))
  Params : Option (List (Str × Str))
  Origins : List Str
  deriving DecidableEq, Repr

/-- The parts of the `*http.Response` of the authentication service that the
handler reads. -/
structure AuthResponse where
  StatusCode : Nat
  Header : Header
  deriving DecidableEq, Repr

/-- The calls of `JwtAuth.AuthMiddleware` whose code is outside the file. -/
structure JwtEnv where
  /-- The helper `allowedOrigin(origins, origin)`. -/
  allowedOrigin : List Str → Str → Bool
  /-- Go `url.Parse(s)` followed by `String()`; `none` is a parse error. -/
  parseURL : Str → Option Str
  /-- Whether `http.NewRequest("GET", url, nil)` returns without error. -/
  NewRequest : Str → Bool
  /-- Go `r.Cookies()`, each cookie as the `name=value` text that `AddCookie`
  writes. -/
  Cookies : Request → List Str
  /-- Go `client.Do(authReq)`; `none` is a transport error. -/
  Do : AuthRequest → Option AuthResponse

def hOrigin : Str := ascii "Origin"
def hAccessControlAllowOrigin : Str := ascii "Access-Control-Allow-Origin"
def hCookie : Str := ascii "Cookie"

/-- Go `Request.AddCookie`, on the header of the outbound request. -/
def AddCookie (h : Header) (s : Str) : Header :=
  let c := Header.Get h hCookie
  if c ≠ [] then Header.Set h hCookie (c ++ ascii "; " ++ s) else Header.Set h hCookie s

/-- The loop `for name, values := range r.Header { for _, value := range values
{ authReq.Header.Set(name, value) } }`. -/
def copyHeaders (src : Header) (dst : Header) : Header :=
  src.foldl (fun acc e => e.2.foldl (fun acc value => Header.Set acc e.1 value) acc) dst

/-- The 500 response written when the outbound request cannot be built. -/
def internalServerError (w : ResponseWriter) : ResponseWriter :=
  let w := w.setHeader hContentType vApplicationJSON
  let w := w.WriteHeader 500
  w.encode { Success := false, Code := 500, Message := "Internal Server Error" }

/-- The 401 response written when the authentication call fails. -/
def authUnauthorized (w : ResponseWriter) : ResponseWriter :=
  let w := w.setHeader hContentType vApplicationJSON
  let w := w.WriteHeader 401
  w.encode { Success := false, Code := 401, Message := "Unauthorized" }

/-- The loop `for k, v := range jwtAuth.Headers { r.Header.Set(v,
authResp.Header.Get(k)) }`. -/
def injectHeaders (hs : List (Str × Str)) (authResp : AuthResponse) (h : Header) : Header :=
  hs.foldl (fun acc kv => Header.Set acc kv.2 (Header.Get authResp.Header kv.1)) h

/-- The loop `for k, v := range jwtAuth.Params { query.Set(v,
authResp.Header.Get(k)) }`. -/
def injectParams (ps : List (Str × Str)) (authResp : AuthResponse) (query : Values) : Values :=
  ps.foldl (fun acc kv => Values.Set acc kv.2 (Header.Get authResp.Header kv.1)) query

/-- The outbound request: `http.NewRequest("GET", authURL.String(), nil)`, the
headers of the inbound request copied, then its cookies added. -/
def authRequest (env : JwtEnv) (authURL : Str) (r : Request) : AuthRequest :=
  let authReq : AuthRequest := { Method := ascii "GET", URL := authURL, Header := [] }
  let authReq := { authReq with Header := copyHeaders r.Header authReq.Header }
  { authReq with Header := (env.Cookies r).foldl AddCookie authReq.Header }

/-- The request as the success path leaves it for `next`: headers injected,
then the query parsed, parameters set, and the query encoded again. -/
def forwardedRequest (jwtAuth : JwtAuth) (authResp : AuthResponse) (r : Request) : Request :=
  let r1 : Request :=
    match jwtAuth.Headers with
    | none => r
    | some hs => { r with Header := injectHeaders hs authResp r.Header }
  let query := ParseQuery r1.RawQuery
  let query :=
    match jwtAuth.Params with
    | none => query
    | some ps => injectParams ps authResp query
  { r1 with RawQuery := Values.Encode query }

/-- The handler returned by `JwtAuth.AuthMiddleware`. -/
def JwtAuth.AuthMiddleware (jwtAuth : JwtAuth) (env : JwtEnv) (r : Request) : Outcome :=
  let w : ResponseWriter := {}
  match jwtAuth.RequiredHeaders.find? (fun header => Header.Get r.Header header = []) with
  | some _ =>
    let w := w.setHeader hContentType vApplicationJSON
    let w :=
      if env.allowedOrigin jwtAuth.Origins (Header.Get r.Header hOrigin) then
        w.setHeader hAccessControlAllowOrigin (Header.Get r.Header hOrigin)
      else w
    let w := w.WriteHeader 401
    { w := w.encode { Success := false, Code := 401, Message := statusText401 } }
  | none =>
    match env.parseURL jwtAuth.AuthURL with
    | none => { w := internalServerError w }
    | some authURL =>
      if !env.NewRequest authURL then { w := internalServerError w }
      else
        let authReq := authRequest env authURL r
        match env.Do authReq with
        | none => { w := authUnauthorized w, outbound := [authReq] }
        | some authResp =>
          if authResp.StatusCode ≠ 200 then { w := authUnauthorized w, outbound := [authReq] }
          else
            { w := w, next := [forwardedRequest jwtAuth authResp r], outbound := [authReq],
              bodyClosed := true }

/-- Whether a response is the JSON envelope for `code`. -/
def IsEnvelope (w : ResponseWriter) (code : Nat) : Prop :=
  Header.Get w.header hContentType = vApplicationJSON ∧ w.status = some code
    ∧ ∃ msg, w.body = [Body.json { Success := false, Code := code, Message := msg }]

/-! ## RateLimiter.RateLimitMiddleware -/

/-- The `RateLimiter` configuration. -/
structure RateLimiter where
  Requests : Int
  Window : Int
  RedisBased : Bool
  Origins : List Str
  deriving DecidableEq, Repr

/-- One `Client` entry: the requests counted in the current window and the
instant at which the window ends.  The counter is an integer without upper
bound: it grows by one per request, and a request takes more than one
nanosecond while a window (a `time.Duration`) lasts less than 2^63 of them, so
the Go `int` cannot wrap inside a window that a request opened.  A count
equal to the largest `int`, where the Go addition wraps, is outside this
embedding; no statement is made about the count stored next. -/
structure Client where
  RequestCount : Int
  ExpiresAt : Int
  deriving DecidableEq, Repr

/-- The `ClientMap` of the limiter, from client IP to its entry. -/
abbrev ClientMap := Str → Option Client

/-- The fields of `redis_rate.Result`. -/
structure Result where
  Allowed : Int
  Remaining : Int
  deriving DecidableEq, Repr

/-- What one run of the rate-limit handler gets from outside: the two readings
of `time.Now()` (the one compared with `ExpiresAt` and the one the new window
starts from) and the answer of `limiter.Allow`. -/
structure RateEnv where
  getRealIP : Request → Str
  allowedOrigin : List Str → Str → Bool
  nowCheck : Int
  nowCreate : Int
  Allow : Str → Int → Except String Result

/-- The text `fmt.Sprintf("%d Too many requests, ...", 429)`. -/
def tooManyRequests : String :=
  "429 Too many requests, API rate limit exceeded. Please try again later"

/-- The function `redisRateLimiter`: `none` is the nil error. -/
def redisRateLimiter (env : RateEnv) (clientIP : Str) (rate : Int) : Option String :=
  match env.Allow clientIP rate with
  | .error err => some err
  | .ok res => if res.Remaining = 0 then some "rate limit exceeded" else none

/-- What the rate-limit handler does: the outcome, and the calls of
`RespondWithError` as (status code, message). -/
structure RateOutcome where
  out : Outcome := {}
  RespondWithError : List (Nat × String) := []
  deriving DecidableEq, Repr

/-- The handler returned by `RateLimiter.RateLimitMiddleware`, with the
`ClientMap` before and after.  The handler runs alone: the count compared
with the limit after `Unlock` is the one it has just stored. -/
def RateLimiter.RateLimitMiddleware (rl : RateLimiter) (env : RateEnv) (m : ClientMap)
    (r : Request) : ClientMap × RateOutcome :=
  let w : ResponseWriter := {}
  let clientIP := env.getRealIP r
  if rl.RedisBased then
    match redisRateLimiter env clientIP rl.Requests with
    | some _ => (m, { out := { w := w }, RespondWithError := [(429, tooManyRequests)] })
    | none =>
      -- `next.ServeHTTP` inside the branch, then the one after the if/else
      (m, { out := { w := w, next := [r, r] } })
  else
    let client : Client :=
      match m clientIP with
      | none => { RequestCount := 0, ExpiresAt := env.nowCreate + rl.Window }
      | some c =>
        if env.nowCheck > c.ExpiresAt then
          { RequestCount := 0, ExpiresAt := env.nowCreate + rl.Window }
        else c
    let client := { client with RequestCount := client.RequestCount + 1 }
    let m1 : ClientMap := fun ip => if ip = clientIP then some client else m ip
    if client.RequestCount > rl.Requests then
      let w :=
        if env.allowedOrigin rl.Origins (Header.Get r.Header hOrigin) then
          w.setHeader hAccessControlAllowOrigin (Header.Get r.Header hOrigin)
        else w
      (m1, { out := { w := w }, RespondWithError := [(429, tooManyRequests)] })
    else (m1, { out := { w := w, next := [r] } })

/-- The empty `ClientMap` of a new limiter. -/
def emptyClientMap : ClientMap := fun _ => none

/-- The handler run on a sequence of requests, one after the other, each with
its own clock readings: the outcomes in order. -/
def serveAll (rl : RateLimiter) : ClientMap → List (RateEnv × Request) → List RateOutcome
  | _, [] => []
  | m, p :: rest =>
    let res := rl.RateLimitMiddleware p.1 m p.2
    res.2 :: serveAll rl res.1 rest

/-- The outcome of an admitted request. -/
def admitted (r : Request) : RateOutcome := { out := { w := {}, next := [r] } }

/-- Whether an outcome is a rejection: `RespondWithError` called once with
status 429, `next` not called, no status written by the handler itself. -/
def IsRejected (o : RateOutcome) : Prop :=
  o.RespondWithError = [(429, tooManyRequests)] ∧ o.out.next = [] ∧ o.out.w.status = none
    ∧ o.out.w.body = []

/-- The critical section of the local branch, from `rl.mu.Lock()` to
`rl.mu.Unlock()`: look the entry up, start a new window when there is none or
it has expired, add one to the count. -/
def lockedSection (rl : RateLimiter) (env : RateEnv) (m : ClientMap) (r : Request) : ClientMap :=
  let clientIP := env.getRealIP r
  let client : Client :=
    match m clientIP with
    | none => { RequestCount := 0, ExpiresAt := env.nowCreate + rl.Window }
    | some c =>
      if env.nowCheck > c.ExpiresAt then
        { RequestCount := 0, ExpiresAt := env.nowCreate + rl.Window }
      else c
  let client := { client with RequestCount := client.RequestCount + 1 }
  fun ip => if ip = clientIP then some client else m ip

/-- The local branch after `rl.mu.Unlock()`: the count of the entry is read
again through the pointer `client` and compared with the limit.  Inside one
window the entry of the map is the object `client` points to. -/
def afterUnlock (rl : RateLimiter) (env : RateEnv) (m : ClientMap) (r : Request) : RateOutcome :=
  let w : ResponseWriter := {}
  match m (env.getRealIP r) with
  | none => { out := { w := w, next := [r] } }
  | some client =>
    if client.RequestCount > rl.Requests then
      let w :=
        if env.allowedOrigin rl.Origins (Header.Get r.Header hOrigin) then
          w.setHeader hAccessControlAllowOrigin (Header.Get r.Header hOrigin)
        else w
      { out := { w := w }, RespondWithError := [(429, tooManyRequests)] }
    else { out := { w := w, next := [r] } }

/-- Where a request stands in a concurrent run: before its critical section,
between `Unlock` and the comparison, or done with its outcome. -/
inductive Phase where
  | waiting
  | counted
  | finished (o : RateOutcome)
  deriving DecidableEq, Repr

/-- The shared `ClientMap` and the phase of every request of a concurrent run. -/
structure Conc where
  m : ClientMap
  phases : List Phase

/-- One atomic step of request `i`: its critical section when it is waiting,
its read of the count and comparison when it is counted; nothing otherwise. -/
def concStep (rl : RateLimiter) (reqs : List (RateEnv × Request)) (s : Conc) (i : Nat) : Conc :=
  match reqs[i]?, s.phases[i]? with
  | some p, some Phase.waiting =>
    { m := lockedSection rl p.1 s.m p.2, phases := s.phases.set i Phase.counted }
  | some p, some Phase.counted =>
    { m := s.m, phases := s.phases.set i (Phase.finished (afterUnlock rl p.1 s.m p.2)) }
  | _, _ => s

/-- A concurrent run: the atomic steps taken in the order of the schedule,
from the map `m` with every request waiting. -/
def concRun (rl : RateLimiter) (reqs : List (RateEnv × Request)) (m : ClientMap)
    (sched : List Nat) : Conc :=
  sched.foldl (concStep rl reqs) { m := m, phases := reqs.map (fun _ => Phase.waiting) }

/-- Whether a phase is a finished request that was admitted. -/
def Phase.isAdmitted : Phase → Bool
  | Phase.finished o => o.out.next ≠ []
  | _ => false

/-- Whether a phase is a finished request. -/
def Phase.isFinished : Phase → Bool
  | Phase.finished _ => true
  | _ => false

/-- The clock readings of a sequence of requests, in the order they are taken. -/
def readings : List (RateEnv × Request) → List Int
  | [] => []
  | p :: rest => p.1.nowCheck :: p.1.nowCreate :: readings rest

/-- The number of requests of client `ip` that are admitted with their arrival
reading in the interval from `a` to `b`, when the sequence is served from `m`. -/
def admittedIn (rl : RateLimiter) (ip : Str) (a b : Int) :
    ClientMap → List (RateEnv × Request) → Nat
  | _, [] => 0
  | m, p :: rest =>
    let res := rl.RateLimitMiddleware p.1 m p.2
    (if p.1.getRealIP p.2 = ip ∧ a ≤ p.1.nowCheck ∧ p.1.nowCheck ≤ b ∧ res.2.out.next ≠ []
      then 1 else 0) + admittedIn rl ip a b res.1 rest

/-- The requests of a sequence paired with their outcomes. -/
def served (rl : RateLimiter) (m : ClientMap) (reqs : List (RateEnv × Request)) :
    List ((RateEnv × Request) × RateOutcome) :=
  reqs.zip (serveAll rl m reqs)

/-- The count stored for `ip`, when there is one, is not negative. -/
def CountNonneg (m : ClientMap) (ip : Str) : Prop :=
  m ip = none ∨ ∃ c, m ip = some c ∧ 0 ≤ c.RequestCount

/-- Whether a phase is a request that has not entered its critical section. -/
def Phase.isWaiting : Phase → Bool
  | Phase.waiting => true
  | _ => false

/-- The invariant of a concurrent run of the requests `reqs` of client `ip`
inside one window: the stored count is the number of requests that have left
the critical section, at most `N` requests are admitted, and every finished
request is admitted or rejected. -/
structure ConcInv (rl : RateLimiter) (reqs : List (RateEnv × Request)) (ip : Str)
    (s : Conc) : Prop where
  len : s.phases.length = reqs.length
  count : (s.phases.countP Phase.isWaiting = reqs.length ∧ s.m ip = none)
    ∨ ∃ E, s.m ip = some ⟨(reqs.length : Int) - s.phases.countP Phase.isWaiting, E⟩
      ∧ ∃ q ∈ reqs, E = q.1.nowCreate + rl.Window
  adm : (s.phases.countP Phase.isAdmitted : Int) ≤ rl.Requests
  fin : ∀ (i : Nat) (p : RateEnv × Request) (o : RateOutcome), reqs[i]? = some p →
    s.phases[i]? = some (Phase.finished o) → o = admitted p.2 ∨ IsRejected o

/-! ## TokenRateLimiter.RateLimitMiddleware -/

/-- The handler returned by `TokenRateLimiter.RateLimitMiddleware`; `allow` is
the answer of `rl.Allow()`. -/
def TokenRateLimiter.RateLimitMiddleware (allow : Bool) (r : Request) : Outcome :=
  let w : ResponseWriter := {}
  if !allow then
    let w := w.WriteHeader 429
    { w := w.write (Body.text tooManyRequests) }
  else { w := w, next := [r] }

/-! ## Concrete inputs -/

/-- A limiter in local mode: 2 requests per window of 60. -/
def demoLimiter : RateLimiter := { Requests := 2, Window := 60, RedisBased := false, Origins := [] }

/-- A request from the client at `ip`. -/
def demoRequest (ip : Str) : Request :=
  { Method := ascii "GET", Path := ascii "/", RawQuery := [],
    Header := [(ascii "X-Real-Ip", [ip])] }

/-- An environment whose clock reads `t` twice, whose client IP is the
X-Real-Ip header, and whose store answers with the error `down`. -/
def demoEnv (t : Int) : RateEnv :=
  { getRealIP := fun r => Header.Get r.Header (ascii "X-Real-Ip"),
    allowedOrigin := fun _ _ => false,
    nowCheck := t, nowCreate := t,
    Allow := fun _ _ => .error "down" }

/-- An authentication service that accepts every URL and answers `resp` to
every request; no origin is allowed and the request has no cookie. -/
def demoJwtEnv (resp : Option AuthResponse) : JwtEnv :=
  { allowedOrigin := fun _ _ => false,
    parseURL := fun s => some s,
    NewRequest := fun _ => true,
    Cookies := fun _ => [],
    Do := fun _ => resp }

/-- A gate with no required header and the given header and parameter maps. -/
def demoJwt (hs ps : Option (List (Str × Str))) : JwtAuth :=
  { AuthURL := ascii "http://auth", RequiredHeaders := [], Headers := hs, Params := ps,
    Origins := [] }

/-- The environment `demoJwtEnv` for a request whose cookies are `cs`. -/
def demoCookieEnv (cs : List Str) (resp : Option AuthResponse) : JwtEnv :=
  { demoJwtEnv resp with Cookies := fun _ => cs }

/-- A GET request for "/" with the given query and headers. -/
def demoGet (q : Str) (h : Header) : Request :=
  { Method := ascii "GET", Path := ascii "/", RawQuery := q, Header := h }

/-- The environment `demoEnv 0` with a store that answers `res`. -/
def demoStoreEnv (res : Result) : RateEnv :=
  { demoEnv 0 with Allow := fun _ _ => .ok res }

/-- A limiter in distributed mode: 5 requests per minute. -/
def demoRedisLimiter : RateLimiter :=
  { Requests := 5, Window := 60, RedisBased := true, Origins := [] }

/-- The condition of C16 on a request: the Authorization header starts with
"Basic ", the rest decodes, and the payload cut at its first colon is the
configured user name and password. -/
def BasicAccepts (basicAuth : AuthBasic) (r : Request) : Prop :=
  hasPrefix (Header.Get r.Header hAuthorization) basicPrefix = true
    ∧ ∃ payload,
      DecodeString ((Header.Get r.Header hAuthorization).drop basicPrefix.length) = some payload
        ∧ splitN2 payload = [basicAuth.Username, basicAuth.Password]

/-- A gate that copies X-User-Id to the header X-Forwarded-User and X-Role to
the parameter role. -/
def demoInject : JwtAuth :=
  demoJwt (some [(ascii "X-User-Id", ascii "X-Forwarded-User")])
    (some [(ascii "X-Role", ascii "role")])

/-- An authentication response with X-User-Id: 42 and no X-Role. -/
def demoInjectResp : AuthResponse := ⟨200, [(ascii "X-User-Id", [ascii "42"])]⟩

/-- A request in which the client sent the destination fields itself. -/
def demoClient (user role : Str) : Request :=
  demoGet (ascii "role=" ++ role ++ ascii "&id=7")
    [(ascii "X-Forwarded-User", [user])]

/-- A gate that copies X-Role to the parameter role. -/
def demoRoleGate : JwtAuth := demoJwt none (some [(ascii "X-Role", ascii "role")])

/-- An authentication response with X-Role: admin. -/
def demoRoleResp : AuthResponse := ⟨200, [(ascii "X-Role", [ascii "admin"])]⟩

/-- A raw query whose last piece has a bad escape. -/
def demoQuery : Str := ascii "role=guest&tag=a&id=7&tag=b&bad=%zz"

/-- Go `math.MaxInt` on a 64-bit platform. -/
def maxInt : Int := 9223372036854775807

/-! ## Lemmas: base64 -/

theorem decodeMap_encodeStd_fin : ∀ s : Fin 64, decodeMap (encodeStd s.val) = some s.val := by
  decide

theorem decodeMap_encodeStd (s : Nat) (h : s < 64) : decodeMap (encodeStd s) = some s :=
  decodeMap_encodeStd_fin ⟨s, h⟩

theorem decodeMap_pad : decodeMap 61 = none := by decide

theorem ofNat_eq_of_mod (x : Nat) (a : Byte) (h : x % 256 = a.val) :
    (Fin.ofNat x : Byte) = a := by
  apply Fin.ext
  simpa [Fin.ofNat] using h

theorem decodeFrom_quad (s0 s1 s2 s3 : Nat) (h0 : s0 < 64) (h1 : s1 < 64) (h2 : s2 < 64)
    (h3 : s3 < 64) (rest : Str) :
    decodeFrom (encodeStd s0 :: encodeStd s1 :: encodeStd s2 :: encodeStd s3 :: rest) []
      = (decodeFrom rest []).map (fun out => quantumBytes [s0, s1, s2, s3] ++ out) := by
  simp [decodeFrom, decodeMap_encodeStd, h0, h1, h2, h3]

theorem decodeFrom_pad1 (s0 s1 s2 : Nat) (h0 : s0 < 64) (h1 : s1 < 64) (h2 : s2 < 64) :
    decodeFrom [encodeStd s0, encodeStd s1, encodeStd s2, 61] []
      = some (quantumBytes [s0, s1, s2]) := by
  simp [decodeFrom, decodeMap_encodeStd, h0, h1, h2, decodeMap_pad, skipNewlines]

theorem decodeFrom_pad2 (s0 s1 : Nat) (h0 : s0 < 64) (h1 : s1 < 64) :
    decodeFrom [encodeStd s0, encodeStd s1, 61, 61] [] = some (quantumBytes [s0, s1]) := by
  simp [decodeFrom, decodeMap_encodeStd, h0, h1, decodeMap_pad, skipNewlines]

theorem quantumBytes_three (a b c : Byte) :
    quantumBytes [(a.val * 65536 + b.val * 256 + c.val) / 262144 % 64,
        (a.val * 65536 + b.val * 256 + c.val) / 4096 % 64,
        (a.val * 65536 + b.val * 256 + c.val) / 64 % 64,
        (a.val * 65536 + b.val * 256 + c.val) % 64] = [a, b, c] := by
  have ha := a.isLt
  have hb := b.isLt
  have hc := c.isLt
  simp only [quantumBytes, quantumVal, List.getD_cons_zero, List.getD_cons_succ, List.length_cons,
    List.length_nil]
  simp only [List.take, Nat.reduceAdd, Nat.reduceSub]
  rw [ofNat_eq_of_mod _ a (by omega), ofNat_eq_of_mod _ b (by omega),
    ofNat_eq_of_mod _ c (by omega)]

theorem quantumBytes_two (a b : Byte) :
    quantumBytes [(a.val * 65536 + b.val * 256) / 262144 % 64,
        (a.val * 65536 + b.val * 256) / 4096 % 64,
        (a.val * 65536 + b.val * 256) / 64 % 64] = [a, b] := by
  have ha := a.isLt
  have hb := b.isLt
  simp only [quantumBytes, quantumVal, List.getD_cons_zero, List.getD_cons_succ, List.length_cons,
    List.length_nil, List.getD_nil]
  simp only [List.take, Nat.reduceAdd, Nat.reduceSub]
  rw [ofNat_eq_of_mod _ a (by omega), ofNat_eq_of_mod _ b (by omega)]

theorem quantumBytes_one (a : Byte) :
    quantumBytes [(a.val * 65536) / 262144 % 64, (a.val * 65536) / 4096 % 64] = [a] := by
  have ha := a.isLt
  simp only [quantumBytes, quantumVal, List.getD_cons_zero, List.getD_cons_succ, List.length_cons,
    List.length_nil, List.getD_nil]
  simp only [List.take, Nat.reduceAdd, Nat.reduceSub]
  rw [ofNat_eq_of_mod _ a (by omega)]

/-- Decoding the standard padded encoding of a byte string gives it back. -/
theorem decodeFrom_EncodeToString : ∀ bs : Str, decodeFrom (EncodeToString bs) [] = some bs
  | [] => by simp [EncodeToString, decodeFrom]
  | [a] => by
    simp only [EncodeToString]
    rw [decodeFrom_pad2 _ _ (Nat.mod_lt _ (by decide)) (Nat.mod_lt _ (by decide)),
      quantumBytes_one]
  | [a, b] => by
    simp only [EncodeToString]
    rw [decodeFrom_pad1 _ _ _ (Nat.mod_lt _ (by decide)) (Nat.mod_lt _ (by decide))
      (Nat.mod_lt _ (by decide)), quantumBytes_two]
  | a :: b :: c :: rest => by
    simp only [EncodeToString]
    rw [decodeFrom_quad _ _ _ _ (Nat.mod_lt _ (by decide)) (Nat.mod_lt _ (by decide))
      (Nat.mod_lt _ (by decide)) (Nat.mod_lt _ (by decide)), quantumBytes_three,
      decodeFrom_EncodeToString rest]
    rfl

theorem DecodeString_EncodeToString (bs : Str) : DecodeString (EncodeToString bs) = some bs :=
  decodeFrom_EncodeToString bs

theorem dropWhile_append_colon (u p : Str) (hu : (58 : Byte) ∉ u) :
    (u ++ 58 :: p).dropWhile (fun c => c != 58) = 58 :: p := by
  induction u with
  | nil => simp [List.dropWhile]
  | cons c u ih =>
    have hc : (c != 58) = true := by
      simp only [bne_iff_ne]
      exact fun h => hu (by simp [h])
    have hu1 : (58 : Byte) ∉ u := fun h => hu (by simp [h])
    rw [List.cons_append, List.dropWhile_cons, hc]
    exact ih hu1

theorem takeWhile_append_colon (u p : Str) (hu : (58 : Byte) ∉ u) :
    (u ++ 58 :: p).takeWhile (fun c => c != 58) = u := by
  induction u with
  | nil => simp [List.takeWhile]
  | cons c u ih =>
    have hc : (c != 58) = true := by
      simp only [bne_iff_ne]
      exact fun h => hu (by simp [h])
    have hu1 : (58 : Byte) ∉ u := fun h => hu (by simp [h])
    rw [List.cons_append, List.takeWhile_cons, hc]
    simp [ih hu1]

theorem splitN2_append_colon (u p : Str) (hu : (58 : Byte) ∉ u) :
    splitN2 (u ++ 58 :: p) = [u, p] := by
  simp [splitN2, dropWhile_append_colon u p hu, takeWhile_append_colon u p hu]

/-! ## Theorems: AuthBasic.AuthMiddleware -/

/-- C1: when the Authorization header of the request is "Basic " followed by
the standard padded base64 encoding of `Username ++ ":" ++ Password`, and the
user name holds no colon, the handler calls `next` exactly once, with the
request as received, and writes no status, header or body itself. -/
theorem basic_valid_credentials_call_next (basicAuth : AuthBasic) (r : Request)
    (hu : (58 : Byte) ∉ basicAuth.Username)
    (hr : Header.Get r.Header hAuthorization
      = basicPrefix ++ EncodeToString (basicAuth.Username ++ 58 :: basicAuth.Password)) :
    AuthBasic.AuthMiddleware basicAuth r = { w := {}, next := [r], outbound := [] } := by
  have hne : basicPrefix ++ EncodeToString (basicAuth.Username ++ 58 :: basicAuth.Password)
      ≠ [] := by
    simp [basicPrefix, ascii]
  have hpre : hasPrefix
      (basicPrefix ++ EncodeToString (basicAuth.Username ++ 58 :: basicAuth.Password))
      basicPrefix = true := by
    simp [hasPrefix]
  simp only [AuthBasic.AuthMiddleware, hr, hne, hpre, if_false, List.drop_left,
    DecodeString_EncodeToString, splitN2_append_colon _ _ hu]
  simp

/-- Witness of C1: user "u", password "p:q", header "Basic dTpwOnE=". -/
theorem basic_valid_credentials_call_next_witness :
    AuthBasic.AuthMiddleware ⟨[117], [112, 58, 113]⟩
        ⟨ascii "GET", ascii "/", [], [(hAuthorization, [ascii "Basic dTpwOnE="])]⟩
      = { w := {}, next := [⟨ascii "GET", ascii "/", [], [(hAuthorization, [ascii "Basic dTpwOnE="])]⟩],
          outbound := [] } :=
  basic_valid_credentials_call_next ⟨[117], [112, 58, 113]⟩
    ⟨ascii "GET", ascii "/", [], [(hAuthorization, [ascii "Basic dTpwOnE="])]⟩
    (by decide) (by decide)

/-- C2: on a non-empty Authorization header without the "Basic " prefix
("Bearer abc"), and on one whose text after the prefix is not base64
("Basic !!!!"), the handler answers 401 and does not call `next`, but the
response has no WWW-Authenticate header; with a wrong password ("Basic
dTp4", that is "u:x") the same handler does set it. -/
theorem basic_reject_without_challenge :
    ((AuthBasic.AuthMiddleware ⟨[117], [112]⟩
          ⟨ascii "GET", ascii "/", [], [(hAuthorization, [ascii "Bearer abc"])]⟩).w.status
        = some 401
      ∧ Header.values (AuthBasic.AuthMiddleware ⟨[117], [112]⟩
          ⟨ascii "GET", ascii "/", [], [(hAuthorization, [ascii "Bearer abc"])]⟩).w.header
          (CanonicalMIMEHeaderKey hWWWAuthenticate) = [])
    ∧ ((AuthBasic.AuthMiddleware ⟨[117], [112]⟩
          ⟨ascii "GET", ascii "/", [], [(hAuthorization, [ascii "Basic !!!!"])]⟩).w.status
        = some 401
      ∧ Header.values (AuthBasic.AuthMiddleware ⟨[117], [112]⟩
          ⟨ascii "GET", ascii "/", [], [(hAuthorization, [ascii "Basic !!!!"])]⟩).w.header
          (CanonicalMIMEHeaderKey hWWWAuthenticate) = [])
    ∧ ((AuthBasic.AuthMiddleware ⟨[117], [112]⟩
          ⟨ascii "GET", ascii "/", [], [(hAuthorization, [ascii "Basic dTp4"])]⟩).w.status
        = some 401
      ∧ Header.values (AuthBasic.AuthMiddleware ⟨[117], [112]⟩
          ⟨ascii "GET", ascii "/", [], [(hAuthorization, [ascii "Basic dTp4"])]⟩).w.header
          (CanonicalMIMEHeaderKey hWWWAuthenticate) = [vBasicRealm]) := by
  decide

/-! ## Lemmas: one step of the local limiter -/

theorem step_fresh (rl : RateLimiter) (env : RateEnv) (m : ClientMap) (r : Request)
    (hmode : rl.RedisBased = false) (hN : 1 ≤ rl.Requests)
    (hm : m (env.getRealIP r) = none
      ∨ ∃ c, m (env.getRealIP r) = some c ∧ env.nowCheck > c.ExpiresAt) :
    rl.RateLimitMiddleware env m r
      = (fun ip => if ip = env.getRealIP r then some ⟨1, env.nowCreate + rl.Window⟩ else m ip,
         admitted r) := by
  have h1 : ¬ ((0 : Int) + 1 > rl.Requests) := by omega
  rcases hm with hm | ⟨c, hm, hc⟩
  · simp [RateLimiter.RateLimitMiddleware, hmode, hm, h1, hN, admitted]
  · simp [RateLimiter.RateLimitMiddleware, hmode, hm, hc, h1, hN, admitted]

theorem step_in_window (rl : RateLimiter) (env : RateEnv) (m : ClientMap) (r : Request)
    (c : Client) (hmode : rl.RedisBased = false) (hm : m (env.getRealIP r) = some c)
    (hc : env.nowCheck ≤ c.ExpiresAt) :
    (rl.RateLimitMiddleware env m r).1
        = (fun ip => if ip = env.getRealIP r then some ⟨c.RequestCount + 1, c.ExpiresAt⟩
            else m ip)
      ∧ (c.RequestCount + 1 ≤ rl.Requests → (rl.RateLimitMiddleware env m r).2 = admitted r)
      ∧ (rl.Requests < c.RequestCount + 1 → IsRejected (rl.RateLimitMiddleware env m r).2) := by
  have hc1 : ¬ (env.nowCheck > c.ExpiresAt) := by omega
  refine ⟨?_, ?_, ?_⟩
  · simp only [RateLimiter.RateLimitMiddleware, hmode, hm, hc1, Bool.false_eq_true, if_false]
    split <;> rfl
  · intro h
    have h2 : ¬ (c.RequestCount + 1 > rl.Requests) := by omega
    simp [RateLimiter.RateLimitMiddleware, hmode, hm, hc1, h2, admitted]
  · intro h
    have h2 : c.RequestCount + 1 > rl.Requests := by omega
    simp only [RateLimiter.RateLimitMiddleware, hmode, hm, hc1, h2, IsRejected,
      Bool.false_eq_true, if_false, if_true]
    split <;> simp [ResponseWriter.setHeader]

theorem serveAll_length (rl : RateLimiter) :
    ∀ (reqs : List (RateEnv × Request)) (m : ClientMap), (serveAll rl m reqs).length = reqs.length
  | [], _ => rfl
  | p :: rest, m => by
    simp [serveAll, serveAll_length rl rest]

theorem serveAll_in_window (rl : RateLimiter) (hmode : rl.RedisBased = false) (ip : Str)
    (E : Int) :
    ∀ (rest : List (RateEnv × Request)) (m : ClientMap) (k : Int),
      m ip = some ⟨k, E⟩ → (∀ p ∈ rest, p.1.getRealIP p.2 = ip) →
      (∀ p ∈ rest, p.1.nowCheck ≤ E) →
      ∀ (i : Nat) (o : RateOutcome) (p : RateEnv × Request),
        (serveAll rl m rest)[i]? = some o → rest[i]? = some p →
        (k + i + 1 ≤ rl.Requests → o = admitted p.2)
          ∧ (rl.Requests < k + i + 1 → IsRejected o) := by
  intro rest
  induction rest with
  | nil => intro m k _ _ _ i o p ho; simp [serveAll] at ho
  | cons q rest ih =>
    intro m k hm hip hwin i o p ho hp
    have hq : q.1.getRealIP q.2 = ip := hip q (by simp)
    have hm1 : m (q.1.getRealIP q.2) = some ⟨k, E⟩ := by rw [hq]; exact hm
    have hstep := step_in_window rl q.1 m q.2 ⟨k, E⟩ hmode hm1 (hwin q (by simp))
    cases i with
    | zero =>
      simp only [serveAll, List.getElem?_cons_zero, Option.some.injEq] at ho hp
      subst ho; subst hp
      refine ⟨fun h => hstep.2.1 (by simpa using h), fun h => hstep.2.2 (by simpa using h)⟩
    | succ i =>
      simp only [serveAll, List.getElem?_cons_succ] at ho hp
      have hm2 : (rl.RateLimitMiddleware q.1 m q.2).1 ip = some ⟨k + 1, E⟩ := by
        rw [hstep.1, hq]; simp
      have := ih _ (k + 1) hm2 (fun p hp => hip p (by simp [hp]))
        (fun p hp => hwin p (by simp [hp])) i o p ho hp
      refine ⟨fun h => this.1 (by push_cast at h; omega), fun h => this.2 (by push_cast at h; omega)⟩

/-! ## Theorems: RateLimiter.RateLimitMiddleware -/

/-- C3: local mode, limit N >= 1, any window, requests of one client IP served
one after the other from the empty ClientMap, each request after the first
arriving no later than the ExpiresAt of the entry the first request creates:
the first N requests are admitted (`next` called with the request) and every
request from the (N+1)th on is rejected with status 429, `next` not called. -/
theorem local_limit_within_window (rl : RateLimiter) (hmode : rl.RedisBased = false)
    (hN : 1 ≤ rl.Requests) (ip : Str) (first : RateEnv × Request)
    (rest : List (RateEnv × Request))
    (hip : ∀ p ∈ first :: rest, p.1.getRealIP p.2 = ip)
    (hwin : ∀ p ∈ rest, p.1.nowCheck ≤ first.1.nowCreate + rl.Window) :
    (serveAll rl emptyClientMap (first :: rest)).length = (first :: rest).length
      ∧ ∀ (i : Nat) (o : RateOutcome) (p : RateEnv × Request),
        (serveAll rl emptyClientMap (first :: rest))[i]? = some o →
        (first :: rest)[i]? = some p →
        ((i : Int) < rl.Requests → o = admitted p.2)
          ∧ (rl.Requests ≤ (i : Int) → IsRejected o) := by
  refine ⟨serveAll_length rl _ _, ?_⟩
  intro i o p ho hp
  have hfirst := step_fresh rl first.1 emptyClientMap first.2 hmode hN (Or.inl rfl)
  have hq : first.1.getRealIP first.2 = ip := hip first (by simp)
  cases i with
  | zero =>
    simp only [serveAll, List.getElem?_cons_zero, Option.some.injEq] at ho hp
    subst ho; subst hp
    rw [hfirst]
    exact ⟨fun _ => rfl, fun h => by simp at h; omega⟩
  | succ i =>
    simp only [serveAll, List.getElem?_cons_succ] at ho hp
    have hm2 : (rl.RateLimitMiddleware first.1 emptyClientMap first.2).1 ip
        = some ⟨1, first.1.nowCreate + rl.Window⟩ := by
      rw [hfirst, hq]; simp
    have := serveAll_in_window rl hmode ip _ rest _ 1 hm2
      (fun p hp => hip p (by simp [hp])) hwin i o p ho hp
    refine ⟨fun h => this.1 (by push_cast at h; omega), fun h => this.2 (by push_cast at h; omega)⟩

/-- Witness of C3: limit 2, window 60, requests at times 0, 10, 60 and 60. -/
theorem local_limit_within_window_witness :
    (∀ p ∈ [(demoEnv 0, demoRequest [49]), (demoEnv 10, demoRequest [49]),
        (demoEnv 60, demoRequest [49]), (demoEnv 60, demoRequest [49])],
        p.1.getRealIP p.2 = [49])
      ∧ (serveAll demoLimiter emptyClientMap
          [(demoEnv 0, demoRequest [49]), (demoEnv 10, demoRequest [49]),
            (demoEnv 60, demoRequest [49]), (demoEnv 60, demoRequest [49])]).length = 4
      ∧ ∀ (i : Nat) (o : RateOutcome) (p : RateEnv × Request),
        (serveAll demoLimiter emptyClientMap
          [(demoEnv 0, demoRequest [49]), (demoEnv 10, demoRequest [49]),
            (demoEnv 60, demoRequest [49]), (demoEnv 60, demoRequest [49])])[i]? = some o →
        [(demoEnv 0, demoRequest [49]), (demoEnv 10, demoRequest [49]),
            (demoEnv 60, demoRequest [49]), (demoEnv 60, demoRequest [49])][i]? = some p →
        ((i : Int) < 2 → o = admitted p.2) ∧ (2 ≤ (i : Int) → IsRejected o) :=
  ⟨by decide,
    local_limit_within_window demoLimiter rfl (by decide) [49] (demoEnv 0, demoRequest [49])
      [(demoEnv 10, demoRequest [49]), (demoEnv 60, demoRequest [49]),
        (demoEnv 60, demoRequest [49])]
      (by decide) (by decide)⟩

/-- C4: local mode, limit N >= 1, any stored entry for the client IP: a request
whose clock reading is strictly after the ExpiresAt of the entry is admitted and
leaves the entry with RequestCount = 1 and ExpiresAt = now + Window (now being
the reading the new window starts from); a request whose reading equals
ExpiresAt does not reset the entry: the entry keeps its ExpiresAt, and its
count is the old count plus one (stated for counts below the largest `int`,
where the Go addition does not wrap). -/
theorem local_expired_window_resets (rl : RateLimiter) (env : RateEnv) (m : ClientMap)
    (r : Request) (c : Client) (hmode : rl.RedisBased = false) (hN : 1 ≤ rl.Requests)
    (hm : m (env.getRealIP r) = some c) :
    (env.nowCheck > c.ExpiresAt →
        (rl.RateLimitMiddleware env m r).2 = admitted r
          ∧ (rl.RateLimitMiddleware env m r).1 (env.getRealIP r)
            = some ⟨1, env.nowCreate + rl.Window⟩)
      ∧ (env.nowCheck = c.ExpiresAt →
        ((rl.RateLimitMiddleware env m r).1 (env.getRealIP r)).map Client.ExpiresAt
            = some c.ExpiresAt
          ∧ (c.RequestCount < maxInt →
            (rl.RateLimitMiddleware env m r).1 (env.getRealIP r)
              = some ⟨c.RequestCount + 1, c.ExpiresAt⟩)) := by
  constructor
  · intro h
    rw [step_fresh rl env m r hmode hN (Or.inr ⟨c, hm, h⟩)]
    simp
  · intro h
    rw [(step_in_window rl env m r c hmode hm (by omega)).1]
    simp

/-- Witness of C4: an entry with count 7 that expired at 100; a request at 101
resets it, a request at 100 does not. -/
theorem local_expired_window_resets_witness :
    ((demoLimiter.RateLimitMiddleware (demoEnv 101)
          (fun ip => if ip = [49] then some ⟨7, 100⟩ else none) (demoRequest [49])).2
        = admitted (demoRequest [49])
      ∧ (demoLimiter.RateLimitMiddleware (demoEnv 101)
          (fun ip => if ip = [49] then some ⟨7, 100⟩ else none) (demoRequest [49])).1 [49]
        = some ⟨1, 161⟩)
    ∧ ((demoLimiter.RateLimitMiddleware (demoEnv 100)
          (fun ip => if ip = [49] then some ⟨7, 100⟩ else none) (demoRequest [49])).1 [49]).map
          Client.ExpiresAt = some 100
    ∧ (demoLimiter.RateLimitMiddleware (demoEnv 100)
          (fun ip => if ip = [49] then some ⟨7, 100⟩ else none) (demoRequest [49])).1 [49]
        = some ⟨8, 100⟩ :=
  ⟨(local_expired_window_resets demoLimiter (demoEnv 101)
      (fun ip => if ip = [49] then some ⟨7, 100⟩ else none) (demoRequest [49]) ⟨7, 100⟩
      rfl (by decide) (by decide)).1 (by decide),
    ((local_expired_window_resets demoLimiter (demoEnv 100)
      (fun ip => if ip = [49] then some ⟨7, 100⟩ else none) (demoRequest [49]) ⟨7, 100⟩
      rfl (by decide) (by decide)).2 (by decide)).1,
    ((local_expired_window_resets demoLimiter (demoEnv 100)
      (fun ip => if ip = [49] then some ⟨7, 100⟩ else none) (demoRequest [49]) ⟨7, 100⟩
      rfl (by decide) (by decide)).2 (by decide)).2 (by decide)⟩

/-- C10: distributed mode: when the store call of `redisRateLimiter` returns an
error, the handler calls `RespondWithError` with status 429, writes no status
of its own, does not call `next`, and leaves the ClientMap as it was. -/
theorem redis_store_error_rejects (rl : RateLimiter) (env : RateEnv) (m : ClientMap)
    (r : Request) (err : String) (hmode : rl.RedisBased = true)
    (herr : env.Allow (env.getRealIP r) rl.Requests = .error err) :
    redisRateLimiter env (env.getRealIP r) rl.Requests = some err
      ∧ (rl.RateLimitMiddleware env m r).2
        = { out := {}, RespondWithError := [(429, tooManyRequests)] }
      ∧ (rl.RateLimitMiddleware env m r).1 = m := by
  have h1 : redisRateLimiter env (env.getRealIP r) rl.Requests = some err := by
    simp [redisRateLimiter, herr]
  simp [RateLimiter.RateLimitMiddleware, hmode, h1]

/-- Witness of C10: the store of `demoEnv` is down. -/
theorem redis_store_error_rejects_witness :
    redisRateLimiter (demoEnv 0) ((demoEnv 0).getRealIP (demoRequest [49])) 5 = some "down"
      ∧ (RateLimiter.RateLimitMiddleware ⟨5, 60, true, []⟩ (demoEnv 0) emptyClientMap
          (demoRequest [49])).2
        = { out := {}, RespondWithError := [(429, tooManyRequests)] }
      ∧ (RateLimiter.RateLimitMiddleware ⟨5, 60, true, []⟩ (demoEnv 0) emptyClientMap
          (demoRequest [49])).1 = emptyClientMap :=
  redis_store_error_rejects ⟨5, 60, true, []⟩ (demoEnv 0) emptyClientMap (demoRequest [49])
    "down" rfl rfl

/-! ## Lemmas: Go maps -/

theorem lookup_mapSet_self {β : Type} (m : List (Str × β)) (k : Str) (v : β) :
    (mapSet m k v).lookup k = some v := by
  induction m with
  | nil => simp [mapSet, List.lookup]
  | cons e m ih =>
    by_cases h : e.1 = k
    · simp [mapSet, h, List.lookup]
    · have : (k == e.1) = false := by simpa using fun h2 => h h2.symm
      simp [mapSet, h, List.lookup, this, ih]

theorem lookup_mapSet_ne {β : Type} (m : List (Str × β)) (k k1 : Str) (v : β) (hne : k1 ≠ k) :
    (mapSet m k v).lookup k1 = m.lookup k1 := by
  induction m with
  | nil =>
    have : (k1 == k) = false := by simpa using hne
    simp [mapSet, List.lookup, this]
  | cons e m ih =>
    by_cases h : e.1 = k
    · have : (k1 == k) = false := by simpa using hne
      simp [mapSet, h, List.lookup, this]
    · simp [mapSet, h, List.lookup, ih]

theorem Get_Set_same (h : Header) (key key1 value : Str)
    (hk : CanonicalMIMEHeaderKey key1 = CanonicalMIMEHeaderKey key) :
    Header.Get (Header.Set h key value) key1 = value := by
  simp [Header.Get, Header.Set, Header.values, hk, lookup_mapSet_self]

theorem Get_Set_other (h : Header) (key key1 value : Str)
    (hk : CanonicalMIMEHeaderKey key1 ≠ CanonicalMIMEHeaderKey key) :
    Header.Get (Header.Set h key value) key1 = Header.Get h key1 := by
  simp [Header.Get, Header.Set, Header.values, lookup_mapSet_ne _ _ _ _ hk]

theorem Get_injectHeaders_other (authResp : AuthResponse) (d : Str) :
    ∀ (hs : List (Str × Str)) (h : Header),
      CanonicalMIMEHeaderKey d ∉ hs.map (fun kv => CanonicalMIMEHeaderKey kv.2) →
      Header.Get (injectHeaders hs authResp h) d = Header.Get h d := by
  intro hs
  induction hs with
  | nil => intro h _; rfl
  | cons kv hs ih =>
    intro h hd
    simp only [List.map_cons, List.mem_cons, not_or] at hd
    have : injectHeaders (kv :: hs) authResp h
        = injectHeaders hs authResp (Header.Set h kv.2 (Header.Get authResp.Header kv.1)) := rfl
    rw [this, ih _ hd.2, Get_Set_other _ _ _ _ hd.1]

theorem Get_injectHeaders (authResp : AuthResponse) :
    ∀ (hs : List (Str × Str)) (h : Header),
      (hs.map (fun kv => CanonicalMIMEHeaderKey kv.2)).Nodup →
      ∀ kv ∈ hs, Header.Get (injectHeaders hs authResp h) kv.2
        = Header.Get authResp.Header kv.1 := by
  intro hs
  induction hs with
  | nil => intro h _ kv hkv; simp at hkv
  | cons e hs ih =>
    intro h hnd kv hkv
    simp only [List.map_cons, List.nodup_cons] at hnd
    have hunf : injectHeaders (e :: hs) authResp h
        = injectHeaders hs authResp (Header.Set h e.2 (Header.Get authResp.Header e.1)) := rfl
    rw [hunf]
    rcases List.mem_cons.1 hkv with rfl | hin
    · rw [Get_injectHeaders_other authResp _ hs _ hnd.1, Get_Set_same _ _ _ _ rfl]
    · exact ih _ hnd.2 kv hin

/-! ## Lemmas: the paths of JwtAuth.AuthMiddleware -/

theorem jwt_find_none (jwtAuth : JwtAuth) (r : Request)
    (hreq : ∀ h ∈ jwtAuth.RequiredHeaders, Header.Get r.Header h ≠ []) :
    jwtAuth.RequiredHeaders.find? (fun header => Header.Get r.Header header = []) = none := by
  rw [List.find?_eq_none]
  intro h hh
  simpa using hreq h hh

theorem jwt_success (jwtAuth : JwtAuth) (env : JwtEnv) (r : Request) (authURL : Str)
    (authResp : AuthResponse)
    (hreq : ∀ h ∈ jwtAuth.RequiredHeaders, Header.Get r.Header h ≠ [])
    (hurl : env.parseURL jwtAuth.AuthURL = some authURL) (hnew : env.NewRequest authURL = true)
    (hdo : env.Do (authRequest env authURL r) = some authResp)
    (hok : authResp.StatusCode = 200) :
    jwtAuth.AuthMiddleware env r
      = { w := {}, next := [forwardedRequest jwtAuth authResp r],
          outbound := [authRequest env authURL r], bodyClosed := true } := by
  simp [JwtAuth.AuthMiddleware, jwt_find_none jwtAuth r hreq, hurl, hnew, hdo, hok]

theorem jwt_failure (jwtAuth : JwtAuth) (env : JwtEnv) (r : Request) (authURL : Str)
    (hreq : ∀ h ∈ jwtAuth.RequiredHeaders, Header.Get r.Header h ≠ [])
    (hurl : env.parseURL jwtAuth.AuthURL = some authURL) (hnew : env.NewRequest authURL = true)
    (hdo : ¬ ∃ authResp, env.Do (authRequest env authURL r) = some authResp
      ∧ authResp.StatusCode = 200) :
    jwtAuth.AuthMiddleware env r
      = { w := authUnauthorized {}, next := [], outbound := [authRequest env authURL r] } := by
  simp only [JwtAuth.AuthMiddleware, jwt_find_none jwtAuth r hreq, hurl, hnew]
  cases hd : env.Do (authRequest env authURL r) with
  | none => simp
  | some authResp =>
    have : authResp.StatusCode ≠ 200 := fun h => hdo ⟨authResp, hd, h⟩
    simp [this]

/-! ## Lemmas: query escaping -/

theorem upperhex_nibble : ∀ n : Fin 16,
    ishex (upperhex n.val) = true ∧ unhex (upperhex n.val) = n.val
      ∧ upperhex n.val ≠ 38 ∧ upperhex n.val ≠ 59 ∧ upperhex n.val ≠ 61 := by
  decide

theorem escapeByte_hex (c : Byte) :
    ishex (upperhex (c.val / 16)) = true ∧ ishex (upperhex (c.val % 16)) = true
      ∧ (Fin.ofNat (unhex (upperhex (c.val / 16)) * 16 + unhex (upperhex (c.val % 16))) : Byte)
        = c := by
  have hc := c.isLt
  have h1 := upperhex_nibble ⟨c.val / 16, by omega⟩
  have h2 := upperhex_nibble ⟨c.val % 16, by omega⟩
  refine ⟨h1.1, h2.1, ?_⟩
  apply ofNat_eq_of_mod
  rw [h1.2.1, h2.2.1]
  simp only
  omega

theorem escapeByte_plain (c : Byte) (h : shouldEscape c = false) :
    c ≠ 37 ∧ c ≠ 43 ∧ c ≠ 38 ∧ c ≠ 59 ∧ c ≠ 61 := by
  refine ⟨?_, ?_, ?_, ?_, ?_⟩ <;> (rintro rfl; revert h; decide)

theorem escapeByte_no_separator (c : Byte) : ∀ b ∈ escapeByte c, b ≠ 38 ∧ b ≠ 59 ∧ b ≠ 61 := by
  intro b hb
  have hc := c.isLt
  unfold escapeByte at hb
  by_cases h32 : c = 32
  · simp only [h32, if_true, List.mem_singleton] at hb
    subst hb
    decide
  · by_cases hesc : shouldEscape c = true
    · have h1 := upperhex_nibble ⟨c.val / 16, by omega⟩
      have h2 := upperhex_nibble ⟨c.val % 16, by omega⟩
      simp only [h32, if_false, hesc, if_true, List.mem_cons, List.mem_singleton,
        List.not_mem_nil, or_false] at hb
      rcases hb with rfl | rfl | rfl
      · decide
      · exact h1.2.2
      · exact h2.2.2
    · have hesc2 : shouldEscape c = false := by simpa using hesc
      simp only [h32, if_false, hesc2, Bool.false_eq_true, List.mem_singleton] at hb
      subst hb
      exact (escapeByte_plain b hesc2).2.2

theorem QueryUnescape_plus (rest : Str) :
    QueryUnescape (43 :: rest) = (QueryUnescape rest).map (fun out => (32 : Byte) :: out) := by
  rcases rest with _ | ⟨h1, _ | ⟨h2, t⟩⟩ <;> simp [QueryUnescape]

theorem QueryUnescape_plain (c : Byte) (rest : Str) (h37 : c ≠ 37) (h43 : c ≠ 43) :
    QueryUnescape (c :: rest) = (QueryUnescape rest).map (fun out => c :: out) := by
  rcases rest with _ | ⟨h1, _ | ⟨h2, t⟩⟩ <;> simp [QueryUnescape, h37, h43]

theorem QueryUnescape_percent (h1 h2 : Byte) (rest : Str) (hh1 : ishex h1 = true)
    (hh2 : ishex h2 = true) :
    QueryUnescape (37 :: h1 :: h2 :: rest)
      = (QueryUnescape rest).map (fun out => Fin.ofNat (unhex h1 * 16 + unhex h2) :: out) := by
  simp [QueryUnescape, hh1, hh2]

theorem QueryUnescape_escapeByte (c : Byte) (rest : Str) :
    QueryUnescape (escapeByte c ++ rest) = (QueryUnescape rest).map (fun out => c :: out) := by
  unfold escapeByte
  by_cases h32 : c = 32
  · subst h32
    simp only [if_true, List.singleton_append]
    exact QueryUnescape_plus rest
  · by_cases hesc : shouldEscape c = true
    · obtain ⟨h1, h2, h3⟩ := escapeByte_hex c
      simp only [h32, if_false, hesc, if_true, List.cons_append, List.nil_append]
      rw [QueryUnescape_percent _ _ _ h1 h2, h3]
    · have hesc2 : shouldEscape c = false := by simpa using hesc
      obtain ⟨h37, h43, _⟩ := escapeByte_plain c hesc2
      simp only [h32, if_false, hesc2, Bool.false_eq_true, List.singleton_append]
      exact QueryUnescape_plain c rest h37 h43

theorem QueryUnescape_QueryEscape : ∀ s : Str, QueryUnescape (QueryEscape s) = some s
  | [] => by simp [QueryEscape, QueryUnescape]
  | c :: s => by
    have ih := QueryUnescape_QueryEscape s
    unfold QueryEscape at ih ⊢
    rw [List.flatMap_cons, QueryUnescape_escapeByte, ih]
    rfl

theorem QueryEscape_no_separator (s : Str) : ∀ b ∈ QueryEscape s, b ≠ 38 ∧ b ≠ 59 ∧ b ≠ 61 := by
  intro b hb
  unfold QueryEscape at hb
  rw [List.mem_flatMap] at hb
  obtain ⟨c, _, hc⟩ := hb
  exact escapeByte_no_separator c b hc

theorem takeWhile_append_sep (sep : Byte) (u p : Str) (hu : sep ∉ u) :
    (u ++ sep :: p).takeWhile (fun c => c != sep) = u := by
  induction u with
  | nil => simp [List.takeWhile]
  | cons c u ih =>
    have hc : (c != sep) = true := by
      simp only [bne_iff_ne]
      exact fun h => hu (by simp [h])
    have hu1 : sep ∉ u := fun h => hu (by simp [h])
    rw [List.cons_append, List.takeWhile_cons, hc]
    simp [ih hu1]

theorem dropWhile_append_sep (sep : Byte) (u p : Str) (hu : sep ∉ u) :
    (u ++ sep :: p).dropWhile (fun c => c != sep) = sep :: p := by
  induction u with
  | nil => simp [List.dropWhile]
  | cons c u ih =>
    have hc : (c != sep) = true := by
      simp only [bne_iff_ne]
      exact fun h => hu (by simp [h])
    have hu1 : sep ∉ u := fun h => hu (by simp [h])
    rw [List.cons_append, List.dropWhile_cons, hc]
    exact ih hu1

theorem encodeSegment_no_amp (p : Str × Str) : (38 : Byte) ∉ encodeSegment p := by
  intro h
  unfold encodeSegment at h
  rcases List.mem_append.1 h with h1 | h1
  · exact (QueryEscape_no_separator p.1 38 h1).1 rfl
  · rcases List.mem_cons.1 h1 with h2 | h2
    · revert h2; decide
    · exact (QueryEscape_no_separator p.2 38 h2).1 rfl

theorem parseSegment_encodeSegment (p : Str × Str) : parseSegment (encodeSegment p) = some p := by
  have hsemi : (59 : Byte) ∉ encodeSegment p := by
    intro h
    unfold encodeSegment at h
    rcases List.mem_append.1 h with h1 | h1
    · exact (QueryEscape_no_separator p.1 59 h1).2.1 rfl
    · rcases List.mem_cons.1 h1 with h2 | h2
      · revert h2; decide
      · exact (QueryEscape_no_separator p.2 59 h2).2.1 rfl
  have hne : encodeSegment p ≠ [] := by simp [encodeSegment]
  have heq : (61 : Byte) ∉ QueryEscape p.1 := fun h => (QueryEscape_no_separator p.1 61 h).2.2 rfl
  have ht : (encodeSegment p).takeWhile (fun c => c != 61) = QueryEscape p.1 :=
    takeWhile_append_sep 61 _ _ heq
  have hd : ((encodeSegment p).dropWhile (fun c => c != 61)).drop 1 = QueryEscape p.2 := by
    unfold encodeSegment
    rw [dropWhile_append_sep 61 _ _ heq]
    rfl
  simp only [parseSegment, hsemi, if_false, hne, ht, hd, QueryUnescape_QueryEscape]

theorem splitAmp_ne_nil : ∀ s : Str, splitAmp s ≠ []
  | [] => by simp [splitAmp]
  | c :: rest => by
    unfold splitAmp
    split
    · simp
    · split <;> simp

theorem splitAmp_no_amp : ∀ s : Str, (38 : Byte) ∉ s → splitAmp s = [s]
  | [], _ => rfl
  | c :: rest, h => by
    have hc : c ≠ 38 := fun h2 => h (by simp [h2])
    have hr : (38 : Byte) ∉ rest := fun h2 => h (by simp [h2])
    simp [splitAmp, hc, splitAmp_no_amp rest hr]

theorem splitAmp_append_amp : ∀ (s rest : Str), (38 : Byte) ∉ s →
    splitAmp (s ++ 38 :: rest) = s :: splitAmp rest
  | [], rest, _ => by simp [splitAmp]
  | c :: s, rest, h => by
    have hc : c ≠ 38 := fun h2 => h (by simp [h2])
    have hr : (38 : Byte) ∉ s := fun h2 => h (by simp [h2])
    simp [splitAmp, hc, splitAmp_append_amp s rest hr]

theorem writePairs_nonempty : ∀ (pairs : List (Str × Str)) (buf : Str), buf ≠ [] →
    writePairs buf pairs = buf ++ pairs.flatMap (fun p => 38 :: encodeSegment p) := by
  intro pairs
  induction pairs with
  | nil => intro buf _; simp [writePairs]
  | cons p pairs ih =>
    intro buf hbuf
    have hstep : writePairs buf (p :: pairs)
        = writePairs (buf ++ [38] ++ QueryEscape p.1 ++ 61 :: QueryEscape p.2) pairs := by
      simp [writePairs, hbuf]
    rw [hstep, ih _ (by simp)]
    simp [encodeSegment]

theorem writePairs_nil_cons (p : Str × Str) (pairs : List (Str × Str)) :
    writePairs [] (p :: pairs)
      = encodeSegment p ++ pairs.flatMap (fun q => 38 :: encodeSegment q) := by
  have hstep : writePairs [] (p :: pairs) = writePairs (encodeSegment p) pairs := by
    simp [writePairs, encodeSegment]
  rw [hstep, writePairs_nonempty _ _ (by simp [encodeSegment])]

theorem splitAmp_joined : ∀ (pairs : List (Str × Str)) (p : Str × Str),
    splitAmp (encodeSegment p ++ pairs.flatMap (fun q => 38 :: encodeSegment q))
      = encodeSegment p :: pairs.map encodeSegment := by
  intro pairs
  induction pairs with
  | nil => intro p; simp [splitAmp_no_amp _ (encodeSegment_no_amp p)]
  | cons q pairs ih =>
    intro p
    rw [List.flatMap_cons, List.cons_append, splitAmp_append_amp _ _ (encodeSegment_no_amp p), ih q]
    rfl

theorem rawPairs_writePairs (pairs : List (Str × Str)) : rawPairs (writePairs [] pairs) = pairs := by
  cases pairs with
  | nil => simp [writePairs, rawPairs, splitAmp, parseSegment]
  | cons p pairs =>
    rw [writePairs_nil_cons, rawPairs, splitAmp_joined]
    rw [← List.map_cons encodeSegment p pairs, List.filterMap_map]
    have : (parseSegment ∘ encodeSegment) = fun q => some q := by
      funext q; exact parseSegment_encodeSegment q
    rw [this]
    simp

/-! ## Lemmas: url.Values -/

theorem keys_mapSet {β : Type} (m : List (Str × β)) (k : Str) (v : β) :
    (mapSet m k v).map Prod.fst
      = if k ∈ m.map Prod.fst then m.map Prod.fst else m.map Prod.fst ++ [k] := by
  induction m with
  | nil => simp [mapSet]
  | cons e m ih =>
    by_cases h : e.1 = k
    · simp [mapSet, h]
    · have h2 : ¬ k = e.1 := fun h3 => h h3.symm
      by_cases hk : k ∈ m.map Prod.fst
      · simp only [mapSet, h, if_false, List.map_cons, ih, hk, if_true, List.mem_cons, or_true]
      · simp only [mapSet, h, if_false, List.map_cons, ih, hk, List.mem_cons, h2, or_self,
          List.cons_append]

theorem nodup_keys_mapSet {β : Type} (m : List (Str × β)) (k : Str) (v : β)
    (hm : (m.map Prod.fst).Nodup) : ((mapSet m k v).map Prod.fst).Nodup := by
  rw [keys_mapSet]
  split
  · exact hm
  · rename_i hk
    exact List.Nodup.append hm (List.nodup_singleton k) (by simpa using hk)

theorem lookup_eq_none_of_not_mem {β : Type} (m : List (Str × β)) (k : Str)
    (hk : k ∉ m.map Prod.fst) : m.lookup k = none := by
  induction m with
  | nil => rfl
  | cons e m ih =>
    simp only [List.map_cons, List.mem_cons, not_or] at hk
    have : (k == e.1) = false := by simpa using hk.1
    simp [List.lookup, this, ih hk.2]

theorem pairValues_cons (p : Str × Str) (q : List (Str × Str)) (name : Str) :
    pairValues (p :: q) name
      = if p.1 = name then p.2 :: pairValues q name else pairValues q name := by
  by_cases h : p.1 = name <;> simp [pairValues, List.filter_cons, h]

theorem pairValues_append (q1 q2 : List (Str × Str)) (name : Str) :
    pairValues (q1 ++ q2) name = pairValues q1 name ++ pairValues q2 name := by
  simp [pairValues]

theorem pairValues_key (k name : Str) (vs : List Str) :
    pairValues (vs.map (fun x => (k, x))) name = if k = name then vs else [] := by
  induction vs with
  | nil => simp [pairValues]
  | cons x vs ih =>
    rw [List.map_cons, pairValues_cons, ih]
    by_cases h : k = name <;> simp [h]

theorem pairValues_flatMap (vals : Str → List Str) (name : Str) :
    ∀ keys : List Str, keys.Nodup →
      pairValues (keys.flatMap (fun k => (vals k).map (fun x => (k, x)))) name
        = if name ∈ keys then vals name else [] := by
  intro keys
  induction keys with
  | nil => intro _; simp [pairValues]
  | cons k keys ih =>
    intro hnd
    rw [List.nodup_cons] at hnd
    rw [List.flatMap_cons, pairValues_append, pairValues_key, ih hnd.2]
    by_cases h : k = name
    · subst h
      simp [hnd.1]
    · have h2 : ¬ name = k := fun h3 => h h3.symm
      simp [h, h2]

theorem pairValues_sortedPairs (v : Values) (name : Str) (hv : (v.map Prod.fst).Nodup) :
    pairValues (sortedPairs v) name = (v.lookup name).getD [] := by
  have hperm := List.perm_insertionSort (fun a b : Str => a ≤ b) (v.map Prod.fst)
  unfold sortedPairs
  rw [pairValues_flatMap (fun k => (v.lookup k).getD []) name _ (hperm.nodup_iff.2 hv)]
  by_cases hmem : name ∈ v.map Prod.fst
  · rw [if_pos (hperm.mem_iff.2 hmem)]
  · rw [if_neg (fun h => hmem (hperm.mem_iff.1 h)), lookup_eq_none_of_not_mem v name hmem]
    rfl

theorem queryValues_Encode (v : Values) (name : Str) (hv : (v.map Prod.fst).Nodup) :
    queryValues (Values.Encode v) name = (v.lookup name).getD [] := by
  unfold queryValues Values.Encode
  rw [rawPairs_writePairs, pairValues_sortedPairs v name hv]

theorem lookup_parse_fold (name : Str) :
    ∀ (pairs : List (Str × Str)) (m : Values),
      ((pairs.foldl (fun m p => mapSet m p.1 ((m.lookup p.1).getD [] ++ [p.2])) m).lookup
          name).getD []
        = (m.lookup name).getD [] ++ pairValues pairs name := by
  intro pairs
  induction pairs with
  | nil => intro m; simp [pairValues]
  | cons p pairs ih =>
    intro m
    rw [List.foldl_cons, ih, pairValues_cons]
    by_cases h : p.1 = name
    · subst h
      simp [lookup_mapSet_self]
    · have h2 : name ≠ p.1 := fun h3 => h h3.symm
      simp [lookup_mapSet_ne _ _ _ _ h2, h]

theorem nodup_parse_fold :
    ∀ (pairs : List (Str × Str)) (m : Values), (m.map Prod.fst).Nodup →
      ((pairs.foldl (fun m p => mapSet m p.1 ((m.lookup p.1).getD [] ++ [p.2])) m).map
        Prod.fst).Nodup := by
  intro pairs
  induction pairs with
  | nil => intro m hm; exact hm
  | cons p pairs ih =>
    intro m hm
    rw [List.foldl_cons]
    exact ih _ (nodup_keys_mapSet m _ _ hm)

theorem lookup_ParseQuery (query : Str) (name : Str) :
    ((ParseQuery query).lookup name).getD [] = queryValues query name := by
  unfold ParseQuery queryValues
  rw [lookup_parse_fold]
  rfl

theorem nodup_ParseQuery (query : Str) :
    ((ParseQuery query).map Prod.fst).Nodup :=
  nodup_parse_fold (rawPairs query) [] List.nodup_nil

theorem nodup_injectParams (authResp : AuthResponse) :
    ∀ (ps : List (Str × Str)) (q : Values), (q.map Prod.fst).Nodup →
      ((injectParams ps authResp q).map Prod.fst).Nodup := by
  intro ps
  induction ps with
  | nil => intro q hq; exact hq
  | cons kv ps ih =>
    intro q hq
    exact ih _ (nodup_keys_mapSet q _ _ hq)

theorem lookup_injectParams_other (authResp : AuthResponse) (name : Str) :
    ∀ (ps : List (Str × Str)) (q : Values), name ∉ ps.map Prod.snd →
      (injectParams ps authResp q).lookup name = q.lookup name := by
  intro ps
  induction ps with
  | nil => intro q _; rfl
  | cons kv ps ih =>
    intro q hn
    simp only [List.map_cons, List.mem_cons, not_or] at hn
    have hunf : injectParams (kv :: ps) authResp q
        = injectParams ps authResp (Values.Set q kv.2 (Header.Get authResp.Header kv.1)) := rfl
    rw [hunf, ih _ hn.2]
    exact lookup_mapSet_ne _ _ _ _ hn.1

theorem lookup_injectParams (authResp : AuthResponse) :
    ∀ (ps : List (Str × Str)) (q : Values), (ps.map Prod.snd).Nodup →
      ∀ kv ∈ ps, (injectParams ps authResp q).lookup kv.2
        = some [Header.Get authResp.Header kv.1] := by
  intro ps
  induction ps with
  | nil => intro q _ kv hkv; simp at hkv
  | cons e ps ih =>
    intro q hnd kv hkv
    simp only [List.map_cons, List.nodup_cons] at hnd
    have hunf : injectParams (e :: ps) authResp q
        = injectParams ps authResp (Values.Set q e.2 (Header.Get authResp.Header e.1)) := rfl
    rw [hunf]
    rcases List.mem_cons.1 hkv with rfl | hin
    · rw [lookup_injectParams_other authResp _ ps _ hnd.1]
      exact lookup_mapSet_self _ _ _
    · exact ih _ hnd.2 kv hin

/-! ## Theorems: JwtAuth.AuthMiddleware -/

/-- C5: for a request that carries every required header, with an AuthURL from
which the outbound request can be built, `next` is called (once) exactly when
the authentication call returns a response with status 200; in every other
case (transport error, any other status) the response is 401 with the JSON
body success = false, code = 401, message = "Unauthorized", and `next` is not
called. -/
theorem jwt_next_iff_status_200 (jwtAuth : JwtAuth) (env : JwtEnv) (r : Request)
    (authURL : Str) (hreq : ∀ h ∈ jwtAuth.RequiredHeaders, Header.Get r.Header h ≠ [])
    (hurl : env.parseURL jwtAuth.AuthURL = some authURL)
    (hnew : env.NewRequest authURL = true) :
    ((jwtAuth.AuthMiddleware env r).next.length = 1
        ↔ ∃ authResp, env.Do (authRequest env authURL r) = some authResp
          ∧ authResp.StatusCode = 200)
      ∧ ((¬ ∃ authResp, env.Do (authRequest env authURL r) = some authResp
          ∧ authResp.StatusCode = 200) →
        (jwtAuth.AuthMiddleware env r).next = []
          ∧ (jwtAuth.AuthMiddleware env r).w.status = some 401
          ∧ (jwtAuth.AuthMiddleware env r).w.body
            = [Body.json { Success := false, Code := 401, Message := "Unauthorized" }]) := by
  by_cases hdo : ∃ authResp, env.Do (authRequest env authURL r) = some authResp
      ∧ authResp.StatusCode = 200
  · obtain ⟨authResp, h1, h2⟩ := hdo
    rw [jwt_success jwtAuth env r authURL authResp hreq hurl hnew h1 h2]
    exact ⟨⟨fun _ => ⟨authResp, h1, h2⟩, fun _ => rfl⟩, fun h => absurd ⟨authResp, h1, h2⟩ h⟩
  · rw [jwt_failure jwtAuth env r authURL hreq hurl hnew hdo]
    refine ⟨⟨fun h => by simp at h, fun h => absurd h hdo⟩, fun _ => ⟨rfl, ?_, ?_⟩⟩
    · simp [authUnauthorized, ResponseWriter.encode, ResponseWriter.write,
        ResponseWriter.WriteHeader, ResponseWriter.setHeader]
    · simp [authUnauthorized, ResponseWriter.encode, ResponseWriter.write,
        ResponseWriter.WriteHeader, ResponseWriter.setHeader]

/-- Witness of C5: the service answers 200 (next is called), and the service
answers 204 (401, next is not called). -/
theorem jwt_next_iff_status_200_witness :
    ((demoJwt none none).AuthMiddleware (demoJwtEnv (some ⟨200, []⟩)) (demoGet [] [])).next.length
        = 1
      ∧ (((demoJwt none none).AuthMiddleware (demoJwtEnv (some ⟨204, []⟩)) (demoGet [] [])).next
          = []
        ∧ ((demoJwt none none).AuthMiddleware (demoJwtEnv (some ⟨204, []⟩))
            (demoGet [] [])).w.status = some 401
        ∧ ((demoJwt none none).AuthMiddleware (demoJwtEnv (some ⟨204, []⟩))
            (demoGet [] [])).w.body
          = [Body.json { Success := false, Code := 401, Message := "Unauthorized" }]) :=
  ⟨(jwt_next_iff_status_200 (demoJwt none none) (demoJwtEnv (some ⟨200, []⟩)) (demoGet [] [])
      (ascii "http://auth") (by decide) rfl rfl).1.2 ⟨⟨200, []⟩, rfl, rfl⟩,
    (jwt_next_iff_status_200 (demoJwt none none) (demoJwtEnv (some ⟨204, []⟩)) (demoGet [] [])
      (ascii "http://auth") (by decide) rfl rfl).2
      (by rintro ⟨a, h1, h2⟩; cases h1; exact absurd h2 (by decide))⟩

/-- C6: when some name in RequiredHeaders has no value, or only empty values,
on the request, the response status is 401, no outbound request is made and
`next` is not called. -/
theorem jwt_missing_required_header (jwtAuth : JwtAuth) (env : JwtEnv) (r : Request)
    (hmiss : ∃ h ∈ jwtAuth.RequiredHeaders,
      ∀ v ∈ Header.values r.Header (CanonicalMIMEHeaderKey h), v = []) :
    (jwtAuth.AuthMiddleware env r).w.status = some 401
      ∧ (jwtAuth.AuthMiddleware env r).outbound = []
      ∧ (jwtAuth.AuthMiddleware env r).next = [] := by
  obtain ⟨h, hh, hv⟩ := hmiss
  have hget : Header.Get r.Header h = [] := by
    unfold Header.Get
    cases hl : Header.values r.Header (CanonicalMIMEHeaderKey h) with
    | nil => rfl
    | cons v vs => exact hv v (by rw [hl]; simp)
  cases hf : jwtAuth.RequiredHeaders.find? (fun header => Header.Get r.Header header = []) with
  | none =>
    rw [List.find?_eq_none] at hf
    exact absurd hget (by simpa using hf h hh)
  | some x =>
    simp only [JwtAuth.AuthMiddleware, hf]
    split <;> simp [ResponseWriter.encode, ResponseWriter.write, ResponseWriter.WriteHeader,
      ResponseWriter.setHeader]

/-- Witness of C6: X-Token is required and the request has no header. -/
theorem jwt_missing_required_header_witness :
    (JwtAuth.AuthMiddleware ⟨ascii "http://auth", [ascii "X-Token"], none, none, []⟩
        (demoJwtEnv (some ⟨200, []⟩)) (demoGet [] [])).w.status = some 401
      ∧ (JwtAuth.AuthMiddleware ⟨ascii "http://auth", [ascii "X-Token"], none, none, []⟩
        (demoJwtEnv (some ⟨200, []⟩)) (demoGet [] [])).outbound = []
      ∧ (JwtAuth.AuthMiddleware ⟨ascii "http://auth", [ascii "X-Token"], none, none, []⟩
        (demoJwtEnv (some ⟨200, []⟩)) (demoGet [] [])).next = [] :=
  jwt_missing_required_header ⟨ascii "http://auth", [ascii "X-Token"], none, none, []⟩
    (demoJwtEnv (some ⟨200, []⟩)) (demoGet [] [])
    ⟨ascii "X-Token", by decide, by decide⟩

/-- C7: an inbound request with the two values "a" and "b" for X-Multi reaches
the authentication service with the single value "b" (each `Header.Set` of the
copy loop replaces the values stored before); an inbound request with the
header Cookie: k=1 reaches it with Cookie: k=1; k=1 (the header is copied and
the cookie is then added again). -/
theorem jwt_auth_request_drops_values :
    ((demoJwt none none).AuthMiddleware (demoJwtEnv (some ⟨200, []⟩))
        (demoGet [] [(ascii "X-Multi", [ascii "a", ascii "b"])])).outbound.map
        (fun a => Header.values a.Header (ascii "X-Multi")) = [[ascii "b"]]
      ∧ ((demoJwt none none).AuthMiddleware (demoCookieEnv [ascii "k=1"] (some ⟨200, []⟩))
        (demoGet [] [(ascii "Cookie", [ascii "k=1"])])).outbound.map
        (fun a => Header.values a.Header (ascii "Cookie")) = [[ascii "k=1; k=1"]] := by
  decide

/-- C8, as stated, fails: the destinations "x-dest" and "X-Dest" are distinct
names with one canonical key, X-Dest.  With the authentication response A: 1,
B: 2 and the map A -> x-dest, B -> X-Dest, the request passed to `next` has
x-dest = 2 (not 1, the value of A) when the map is walked in that order, and
X-Dest = 1 (not 2, the value of B) when it is walked in the other order. -/
theorem jwt_headers_case_collision :
    ([(ascii "A", ascii "x-dest"), (ascii "B", ascii "X-Dest")].map Prod.snd).Nodup
      ∧ Header.Get [(ascii "A", [ascii "1"]), (ascii "B", [ascii "2"])] (ascii "A") = ascii "1"
      ∧ Header.Get [(ascii "A", [ascii "1"]), (ascii "B", [ascii "2"])] (ascii "B") = ascii "2"
      ∧ ((demoJwt (some [(ascii "A", ascii "x-dest"), (ascii "B", ascii "X-Dest")])
            none).AuthMiddleware
          (demoJwtEnv (some ⟨200, [(ascii "A", [ascii "1"]), (ascii "B", [ascii "2"])]⟩))
          (demoGet [] [])).next.map (fun r1 => Header.Get r1.Header (ascii "x-dest"))
        = [ascii "2"]
      ∧ ((demoJwt (some [(ascii "B", ascii "X-Dest"), (ascii "A", ascii "x-dest")])
            none).AuthMiddleware
          (demoJwtEnv (some ⟨200, [(ascii "A", [ascii "1"]), (ascii "B", [ascii "2"])]⟩))
          (demoGet [] [])).next.map (fun r1 => Header.Get r1.Header (ascii "X-Dest"))
        = [ascii "1"] := by
  decide

/-- C8, amended: on the success path (status 200) `next` gets the request
`forwardedRequest`; for a Headers map whose destination names have pairwise
distinct canonical keys, every pair (source -> destination) gives the
destination header of that request the value of the source header of the
authentication response; when Headers is nil the headers of the request are
unchanged. -/
theorem jwt_headers_injected (jwtAuth : JwtAuth) (env : JwtEnv) (r : Request) (authURL : Str)
    (authResp : AuthResponse)
    (hreq : ∀ h ∈ jwtAuth.RequiredHeaders, Header.Get r.Header h ≠ [])
    (hurl : env.parseURL jwtAuth.AuthURL = some authURL) (hnew : env.NewRequest authURL = true)
    (hdo : env.Do (authRequest env authURL r) = some authResp)
    (hok : authResp.StatusCode = 200) :
    (jwtAuth.AuthMiddleware env r).next = [forwardedRequest jwtAuth authResp r]
      ∧ (∀ hs, jwtAuth.Headers = some hs →
          (hs.map (fun kv => CanonicalMIMEHeaderKey kv.2)).Nodup →
          ∀ kv ∈ hs, Header.Get (forwardedRequest jwtAuth authResp r).Header kv.2
            = Header.Get authResp.Header kv.1)
      ∧ (jwtAuth.Headers = none → (forwardedRequest jwtAuth authResp r).Header = r.Header) := by
  refine ⟨?_, ?_, ?_⟩
  · rw [jwt_success jwtAuth env r authURL authResp hreq hurl hnew hdo hok]
  · intro hs hhs hnd kv hkv
    simp only [forwardedRequest, hhs]
    exact Get_injectHeaders authResp hs r.Header hnd kv hkv
  · intro hnil
    simp only [forwardedRequest, hnil]

/-- Witness of C8: the response X-User-Id: 42 with the map X-User-Id ->
X-Forwarded-User gives X-Forwarded-User: 42 downstream, over the value the
client sent; with a nil map the headers stay. -/
theorem jwt_headers_injected_witness :
    ((demoJwt (some [(ascii "X-User-Id", ascii "X-Forwarded-User")]) none).AuthMiddleware
          (demoJwtEnv (some ⟨200, [(ascii "X-User-Id", [ascii "42"])]⟩))
          (demoGet [] [(ascii "X-Forwarded-User", [ascii "7"])])).next
        = [forwardedRequest (demoJwt (some [(ascii "X-User-Id", ascii "X-Forwarded-User")]) none)
            ⟨200, [(ascii "X-User-Id", [ascii "42"])]⟩
            (demoGet [] [(ascii "X-Forwarded-User", [ascii "7"])])]
      ∧ Header.Get (forwardedRequest
            (demoJwt (some [(ascii "X-User-Id", ascii "X-Forwarded-User")]) none)
            ⟨200, [(ascii "X-User-Id", [ascii "42"])]⟩
            (demoGet [] [(ascii "X-Forwarded-User", [ascii "7"])])).Header
          (ascii "X-Forwarded-User")
        = Header.Get [(ascii "X-User-Id", [ascii "42"])] (ascii "X-User-Id")
      ∧ (forwardedRequest (demoJwt none none) ⟨200, [(ascii "X-User-Id", [ascii "42"])]⟩
            (demoGet [] [(ascii "X-Forwarded-User", [ascii "7"])])).Header
        = [(ascii "X-Forwarded-User", [ascii "7"])] :=
  ⟨(jwt_headers_injected (demoJwt (some [(ascii "X-User-Id", ascii "X-Forwarded-User")]) none)
      (demoJwtEnv (some ⟨200, [(ascii "X-User-Id", [ascii "42"])]⟩))
      (demoGet [] [(ascii "X-Forwarded-User", [ascii "7"])]) (ascii "http://auth")
      ⟨200, [(ascii "X-User-Id", [ascii "42"])]⟩ (by decide) rfl rfl rfl rfl).1,
    (jwt_headers_injected (demoJwt (some [(ascii "X-User-Id", ascii "X-Forwarded-User")]) none)
      (demoJwtEnv (some ⟨200, [(ascii "X-User-Id", [ascii "42"])]⟩))
      (demoGet [] [(ascii "X-Forwarded-User", [ascii "7"])]) (ascii "http://auth")
      ⟨200, [(ascii "X-User-Id", [ascii "42"])]⟩ (by decide) rfl rfl rfl rfl).2.1
      [(ascii "X-User-Id", ascii "X-Forwarded-User")] rfl (by decide)
      (ascii "X-User-Id", ascii "X-Forwarded-User") (by decide),
    (jwt_headers_injected (demoJwt none none)
      (demoJwtEnv (some ⟨200, [(ascii "X-User-Id", [ascii "42"])]⟩))
      (demoGet [] [(ascii "X-Forwarded-User", [ascii "7"])]) (ascii "http://auth")
      ⟨200, [(ascii "X-User-Id", [ascii "42"])]⟩ (by decide) rfl rfl rfl rfl).2.2 rfl⟩

/-- C9, as stated, fails in two ways.  With the authentication response A: 1,
B: 2 and the Params map A -> p, B -> p (two sources for one parameter), the
query passed to `next` has p = 2 (not 1, the value of A) when the map is walked
in that order and p = 1 (not 2, the value of B) when it is walked in the other
order.  And with the query a=1&b=%zz&c=1;d=2 the query passed to `next` is
a=1: the parameters b, c and d, in pairs that `url.ParseQuery` rejects, are
gone, with a nil Params map too. -/
theorem jwt_params_same_destination :
    Header.Get [(ascii "A", [ascii "1"]), (ascii "B", [ascii "2"])] (ascii "A") = ascii "1"
      ∧ Header.Get [(ascii "A", [ascii "1"]), (ascii "B", [ascii "2"])] (ascii "B") = ascii "2"
      ∧ ((demoJwt none (some [(ascii "A", ascii "p"), (ascii "B", ascii "p")])).AuthMiddleware
          (demoJwtEnv (some ⟨200, [(ascii "A", [ascii "1"]), (ascii "B", [ascii "2"])]⟩))
          (demoGet [] [])).next.map (fun r1 => queryValues r1.RawQuery (ascii "p"))
        = [[ascii "2"]]
      ∧ ((demoJwt none (some [(ascii "B", ascii "p"), (ascii "A", ascii "p")])).AuthMiddleware
          (demoJwtEnv (some ⟨200, [(ascii "A", [ascii "1"]), (ascii "B", [ascii "2"])]⟩))
          (demoGet [] [])).next.map (fun r1 => queryValues r1.RawQuery (ascii "p"))
        = [[ascii "1"]]
      ∧ ((demoJwt none none).AuthMiddleware (demoJwtEnv (some ⟨200, []⟩))
          (demoGet (ascii "a=1&b=%zz&c=1;d=2") [])).next.map (fun r1 => r1.RawQuery)
        = [ascii "a=1"] := by
  decide

theorem splitAmp_writePairs (pairs : List (Str × Str)) :
    ∀ seg ∈ splitAmp (writePairs [] pairs), seg = [] ∨ (parseSegment seg).isSome = true := by
  intro seg hseg
  cases pairs with
  | nil =>
    simp [writePairs, splitAmp] at hseg
    exact Or.inl hseg
  | cons p pairs =>
    rw [writePairs_nil_cons, splitAmp_joined, ← List.map_cons encodeSegment p pairs,
      List.mem_map] at hseg
    obtain ⟨q, _, rfl⟩ := hseg
    right
    rw [parseSegment_encodeSegment]
    rfl

theorem forwarded_RawQuery (jwtAuth : JwtAuth) (authResp : AuthResponse) (r : Request) :
    (forwardedRequest jwtAuth authResp r).RawQuery
      = Values.Encode
        (match jwtAuth.Params with
          | none => ParseQuery r.RawQuery
          | some ps => injectParams ps authResp (ParseQuery r.RawQuery)) := by
  simp only [forwardedRequest]
  cases jwtAuth.Headers <;> rfl

/-- C9, amended: on the success path `next` gets the request
`forwardedRequest`, whose query is such that: for a Params map whose parameter
names are pairwise distinct, every pair (source -> parameter) leaves the
parameter with exactly one value, the value of the source header of the
authentication response; for any Params map, every parameter name that is not
a destination has the values that `URL.Query()` gave it before, in their order;
for a nil Params map every name has them; and every piece of the forwarded
query is a pair that `url.ParseQuery` accepts (the pieces it rejects are not
forwarded). -/
theorem jwt_params_merged (jwtAuth : JwtAuth) (env : JwtEnv) (r : Request) (authURL : Str)
    (authResp : AuthResponse)
    (hreq : ∀ h ∈ jwtAuth.RequiredHeaders, Header.Get r.Header h ≠ [])
    (hurl : env.parseURL jwtAuth.AuthURL = some authURL) (hnew : env.NewRequest authURL = true)
    (hdo : env.Do (authRequest env authURL r) = some authResp)
    (hok : authResp.StatusCode = 200) :
    (jwtAuth.AuthMiddleware env r).next = [forwardedRequest jwtAuth authResp r]
      ∧ (∀ ps, jwtAuth.Params = some ps → (ps.map Prod.snd).Nodup →
        ∀ kv ∈ ps, queryValues (forwardedRequest jwtAuth authResp r).RawQuery kv.2
          = [Header.Get authResp.Header kv.1])
      ∧ (∀ ps, jwtAuth.Params = some ps → ∀ name, name ∉ ps.map Prod.snd →
        queryValues (forwardedRequest jwtAuth authResp r).RawQuery name
          = queryValues r.RawQuery name)
      ∧ (jwtAuth.Params = none → ∀ name,
        queryValues (forwardedRequest jwtAuth authResp r).RawQuery name
          = queryValues r.RawQuery name)
      ∧ (∀ seg ∈ splitAmp (forwardedRequest jwtAuth authResp r).RawQuery,
        seg = [] ∨ (parseSegment seg).isSome = true) := by
  refine ⟨?_, ?_, ?_, ?_, ?_⟩
  · rw [jwt_success jwtAuth env r authURL authResp hreq hurl hnew hdo hok]
  · intro ps hps hnd kv hkv
    rw [forwarded_RawQuery, hps]
    rw [queryValues_Encode _ _ (nodup_injectParams authResp ps _ (nodup_ParseQuery r.RawQuery)),
      lookup_injectParams authResp ps _ hnd kv hkv]
    rfl
  · intro ps hps name hname
    rw [forwarded_RawQuery, hps]
    rw [queryValues_Encode _ _ (nodup_injectParams authResp ps _ (nodup_ParseQuery r.RawQuery)),
      lookup_injectParams_other authResp name ps _ hname, lookup_ParseQuery]
  · intro hnil name
    rw [forwarded_RawQuery, hnil]
    rw [queryValues_Encode _ _ (nodup_ParseQuery r.RawQuery), lookup_ParseQuery]
  · rw [forwarded_RawQuery]
    exact splitAmp_writePairs _

/-- Witness of C9: the response X-Role: admin with the map X-Role -> role, and
with a nil map, on the query role=guest&tag=a&id=7&tag=b&bad=%zz. -/
theorem jwt_params_merged_witness :
    queryValues (forwardedRequest demoRoleGate demoRoleResp (demoGet demoQuery [])).RawQuery
          (ascii "role")
        = [Header.Get demoRoleResp.Header (ascii "X-Role")]
      ∧ queryValues (forwardedRequest demoRoleGate demoRoleResp (demoGet demoQuery [])).RawQuery
          (ascii "tag")
        = queryValues (demoGet demoQuery []).RawQuery (ascii "tag")
      ∧ queryValues (forwardedRequest (demoJwt none none) demoRoleResp
          (demoGet demoQuery [])).RawQuery (ascii "role")
        = queryValues (demoGet demoQuery []).RawQuery (ascii "role")
      ∧ (ascii "id=7" = [] ∨ (parseSegment (ascii "id=7")).isSome = true) :=
  ⟨(jwt_params_merged demoRoleGate (demoJwtEnv (some demoRoleResp)) (demoGet demoQuery [])
      (ascii "http://auth") demoRoleResp (by decide) rfl rfl rfl rfl).2.1
      [(ascii "X-Role", ascii "role")] rfl (by decide) (ascii "X-Role", ascii "role")
      (by decide),
    (jwt_params_merged demoRoleGate (demoJwtEnv (some demoRoleResp)) (demoGet demoQuery [])
      (ascii "http://auth") demoRoleResp (by decide) rfl rfl rfl rfl).2.2.1
      [(ascii "X-Role", ascii "role")] rfl (ascii "tag") (by decide),
    (jwt_params_merged (demoJwt none none) (demoJwtEnv (some demoRoleResp))
      (demoGet demoQuery []) (ascii "http://auth") demoRoleResp (by decide) rfl rfl rfl
      rfl).2.2.2.1 rfl (ascii "role"),
    (jwt_params_merged demoRoleGate (demoJwtEnv (some demoRoleResp)) (demoGet demoQuery [])
      (ascii "http://auth") demoRoleResp (by decide) rfl rfl rfl rfl).2.2.2.2
      (ascii "id=7") (by decide)⟩

/-! ## Theorems: redisRateLimiter, exits of the handlers -/

/-- C11: for a result the store returns without error, `redisRateLimiter`
returns an error when Remaining is 0 and nil when Remaining is at least 1,
whatever the other fields; it returns an error exactly when the store failed
or Remaining is 0. -/
theorem redisRateLimiter_rejects_iff (env : RateEnv) (clientIP : Str) (rate : Int) :
    (∀ res, env.Allow clientIP rate = .ok res →
        (res.Remaining = 0 → redisRateLimiter env clientIP rate = some "rate limit exceeded")
          ∧ (1 ≤ res.Remaining → redisRateLimiter env clientIP rate = none))
      ∧ ((redisRateLimiter env clientIP rate).isSome
        ↔ (∃ err, env.Allow clientIP rate = .error err)
          ∨ ∃ res, env.Allow clientIP rate = .ok res ∧ res.Remaining = 0) := by
  constructor
  · intro res hres
    constructor
    · intro h0
      simp [redisRateLimiter, hres, h0]
    · intro h1
      have : res.Remaining ≠ 0 := by omega
      simp [redisRateLimiter, hres, this]
  · cases h : env.Allow clientIP rate with
    | error err => simp [redisRateLimiter, h]
    | ok res =>
      by_cases h0 : res.Remaining = 0 <;> simp [redisRateLimiter, h, h0]

/-- Witness of C11: Remaining 0 is an error, Remaining 3 is not, with the same
Allowed field. -/
theorem redisRateLimiter_rejects_iff_witness :
    redisRateLimiter (demoStoreEnv ⟨1, 0⟩) [49] 5 = some "rate limit exceeded"
      ∧ redisRateLimiter (demoStoreEnv ⟨1, 3⟩) [49] 5 = none :=
  ⟨((redisRateLimiter_rejects_iff (demoStoreEnv ⟨1, 0⟩) [49] 5).1 ⟨1, 0⟩ rfl).1 rfl,
    ((redisRateLimiter_rejects_iff (demoStoreEnv ⟨1, 3⟩) [49] 5).1 ⟨1, 3⟩ rfl).2 (by decide)⟩

/-- C12: when the authentication service answers 403, the handler writes 401
and returns before the deferred `Body.Close()` is registered: the body of the
response is not closed.  On the answer 200 it is. -/
theorem jwt_body_not_closed_on_rejection :
    ((demoJwt none none).AuthMiddleware (demoJwtEnv (some ⟨403, []⟩)) (demoGet [] [])).bodyClosed
        = false
      ∧ ((demoJwt none none).AuthMiddleware (demoJwtEnv (some ⟨403, []⟩))
          (demoGet [] [])).w.status = some 401
      ∧ ((demoJwt none none).AuthMiddleware (demoJwtEnv (some ⟨403, []⟩))
          (demoGet [] [])).outbound.length = 1
      ∧ ((demoJwt none none).AuthMiddleware (demoJwtEnv (some ⟨200, []⟩))
          (demoGet [] [])).bodyClosed = true := by
  decide

/-- C13: the rejection of `TokenRateLimiter.RateLimitMiddleware` has status
429, no Content-Type header, and the plain text "429 Too many requests, ..." as
body, not the JSON envelope. -/
theorem token_limiter_rejects_in_plain_text :
    TokenRateLimiter.RateLimitMiddleware false (demoGet [] [])
      = { w := { header := [], status := some 429, body := [Body.text tooManyRequests] },
          next := [], outbound := [] } := by
  decide

/-- C15: in distributed mode, when the store answers with Remaining = 3, the
handler calls `next.ServeHTTP` twice: once inside the branch and once after
the if/else. -/
theorem redis_admitted_calls_next_twice :
    (demoRedisLimiter.RateLimitMiddleware (demoStoreEnv ⟨1, 3⟩) emptyClientMap
        (demoRequest [49])).2.out.next = [demoRequest [49], demoRequest [49]]
      ∧ (demoRedisLimiter.RateLimitMiddleware (demoStoreEnv ⟨1, 3⟩) emptyClientMap
        (demoRequest [49])).2.RespondWithError = [] := by
  decide

/-! ## Theorems: the decision of AuthBasic.AuthMiddleware -/

theorem pair_eq_iff (l : List Str) (u p : Str) :
    l = [u, p] ↔ ¬ (l.length ≠ 2 ∨ l.getD 0 [] ≠ u ∨ l.getD 1 [] ≠ p) := by
  match l with
  | [] => simp
  | [x] => simp
  | [x, y] => simp
  | x :: y :: z :: t => simp

theorem splitN2_first_no_colon (s u p : Str) (h : splitN2 s = [u, p]) : (58 : Byte) ∉ u := by
  unfold splitN2 at h
  split at h
  · simp at h
  · simp only [List.cons.injEq, and_true] at h
    intro hmem
    rw [← h.1] at hmem
    have := List.mem_takeWhile_imp hmem
    simp at this

theorem basic_outcome_of_accepts (basicAuth : AuthBasic) (r : Request)
    (h : BasicAccepts basicAuth r) :
    AuthBasic.AuthMiddleware basicAuth r = { w := {}, next := [r], outbound := [] } := by
  obtain ⟨hpre, payload, hdec, hsplit⟩ := h
  have hne : Header.Get r.Header hAuthorization ≠ [] := by
    intro h0
    rw [h0] at hpre
    simp [hasPrefix, basicPrefix, ascii] at hpre
  have hcond := (pair_eq_iff _ _ _).1 hsplit
  simp only [AuthBasic.AuthMiddleware, hne, hpre, hdec, if_false, Bool.not_true,
    Bool.false_eq_true]
  rw [if_neg hcond]

theorem basic_outcome_of_not_accepts (basicAuth : AuthBasic) (r : Request)
    (h : ¬ BasicAccepts basicAuth r) :
    (AuthBasic.AuthMiddleware basicAuth r).next = []
      ∧ (AuthBasic.AuthMiddleware basicAuth r).w.status = some 401 := by
  unfold AuthBasic.AuthMiddleware
  by_cases h0 : Header.Get r.Header hAuthorization = []
  · simp [h0, ResponseWriter.encode, ResponseWriter.write, ResponseWriter.WriteHeader,
      ResponseWriter.setHeader]
  · by_cases hpre : hasPrefix (Header.Get r.Header hAuthorization) basicPrefix = true
    · cases hdec : DecodeString ((Header.Get r.Header hAuthorization).drop basicPrefix.length) with
      | none =>
        simp [h0, hpre, hdec, ResponseWriter.encode, ResponseWriter.write,
          ResponseWriter.WriteHeader, ResponseWriter.setHeader]
      | some payload =>
        have hcond : (splitN2 payload).length ≠ 2 ∨ (splitN2 payload).getD 0 [] ≠ basicAuth.Username
            ∨ (splitN2 payload).getD 1 [] ≠ basicAuth.Password := by
          by_contra hc
          exact h ⟨hpre, payload, hdec, (pair_eq_iff _ _ _).2 hc⟩
        simp only [h0, hpre, hdec, if_false, Bool.not_true, Bool.false_eq_true]
        rw [if_pos hcond]
        simp [ResponseWriter.encode, ResponseWriter.write, ResponseWriter.WriteHeader,
          ResponseWriter.setHeader]
    · simp [h0, hpre, ResponseWriter.encode, ResponseWriter.write, ResponseWriter.WriteHeader,
        ResponseWriter.setHeader]

/-- C16: `next` is called (once, with the request, nothing written) exactly
when the Authorization header starts with "Basic ", the rest decodes as padded
base64 and the payload cut at its first colon is the configured user name and
password; otherwise the response is 401 and `next` is not called.  So a
configured user name that holds a colon is matched by no request, while a
password that holds one can be. -/
theorem basic_next_iff_accepts (basicAuth : AuthBasic) (r : Request) :
    (BasicAccepts basicAuth r →
        AuthBasic.AuthMiddleware basicAuth r = { w := {}, next := [r], outbound := [] })
      ∧ (¬ BasicAccepts basicAuth r →
        (AuthBasic.AuthMiddleware basicAuth r).next = []
          ∧ (AuthBasic.AuthMiddleware basicAuth r).w.status = some 401)
      ∧ ((58 : Byte) ∈ basicAuth.Username →
        (AuthBasic.AuthMiddleware basicAuth r).next = []
          ∧ (AuthBasic.AuthMiddleware basicAuth r).w.status = some 401)
      ∧ (∃ cfg : AuthBasic, ∃ r1 : Request,
        (58 : Byte) ∈ cfg.Password ∧ (AuthBasic.AuthMiddleware cfg r1).next = [r1]) := by
  refine ⟨basic_outcome_of_accepts basicAuth r, basic_outcome_of_not_accepts basicAuth r, ?_, ?_⟩
  · intro hu
    apply basic_outcome_of_not_accepts
    rintro ⟨_, payload, _, hsplit⟩
    exact splitN2_first_no_colon _ _ _ hsplit hu
  · exact ⟨⟨[117], [112, 58, 113]⟩,
      ⟨ascii "GET", ascii "/", [], [(hAuthorization, [ascii "Basic dTpwOnE="])]⟩,
      by decide, by decide⟩

/-- Witness of C16: the user "u" with password "p" is accepted on "Basic dTpw"
("u:p") and refused on "Basic dTp4" ("u:x"); the user "u:p" with an empty
password is refused on "Basic dTpw". -/
theorem basic_next_iff_accepts_witness :
    AuthBasic.AuthMiddleware ⟨[117], [112]⟩ (demoGet [] [(hAuthorization, [ascii "Basic dTpw"])])
        = { w := {}, next := [demoGet [] [(hAuthorization, [ascii "Basic dTpw"])]],
            outbound := [] }
      ∧ ((AuthBasic.AuthMiddleware ⟨[117], [112]⟩
            (demoGet [] [(hAuthorization, [ascii "Basic dTp4"])])).next = []
        ∧ (AuthBasic.AuthMiddleware ⟨[117], [112]⟩
            (demoGet [] [(hAuthorization, [ascii "Basic dTp4"])])).w.status = some 401)
      ∧ ((AuthBasic.AuthMiddleware ⟨[117, 58, 112], []⟩
            (demoGet [] [(hAuthorization, [ascii "Basic dTpw"])])).next = []
        ∧ (AuthBasic.AuthMiddleware ⟨[117, 58, 112], []⟩
            (demoGet [] [(hAuthorization, [ascii "Basic dTpw"])])).w.status = some 401) :=
  ⟨(basic_next_iff_accepts ⟨[117], [112]⟩
      (demoGet [] [(hAuthorization, [ascii "Basic dTpw"])])).1
      ⟨by decide, [117, 58, 112], by decide, by decide⟩,
    (basic_next_iff_accepts ⟨[117], [112]⟩
      (demoGet [] [(hAuthorization, [ascii "Basic dTp4"])])).2.1
      (by
        rintro ⟨_, payload, hdec, hsplit⟩
        have hp : payload = [117, 58, 120] := by
          have h2 : DecodeString ((Header.Get (demoGet []
              [(hAuthorization, [ascii "Basic dTp4"])]).Header hAuthorization).drop
              basicPrefix.length) = some [117, 58, 120] := by decide
          rw [h2] at hdec
          exact (Option.some.inj hdec).symm
        subst hp
        revert hsplit
        decide),
    (basic_next_iff_accepts ⟨[117, 58, 112], []⟩
      (demoGet [] [(hAuthorization, [ascii "Basic dTpw"])])).2.2.1 (by decide)⟩

/-! ## Theorems: frame of the local limiter -/

theorem step_other_ip (rl : RateLimiter) (env : RateEnv) (m : ClientMap) (r : Request) (b : Str)
    (hb : b ≠ env.getRealIP r) : (rl.RateLimitMiddleware env m r).1 b = m b := by
  unfold RateLimiter.RateLimitMiddleware
  by_cases hmode : rl.RedisBased = true
  · simp only [hmode, if_true]
    split <;> rfl
  · simp only [hmode, Bool.false_eq_true, if_false]
    split <;> simp [hb]

theorem step_keeps_entries (rl : RateLimiter) (env : RateEnv) (m : ClientMap) (r : Request)
    (b : Str) (hb : m b ≠ none) : (rl.RateLimitMiddleware env m r).1 b ≠ none := by
  by_cases h : b = env.getRealIP r
  · unfold RateLimiter.RateLimitMiddleware
    by_cases hmode : rl.RedisBased = true
    · simp only [hmode, if_true]
      split <;> exact hb
    · simp only [hmode, Bool.false_eq_true, if_false]
      split <;> simp [h]
  · rw [step_other_ip rl env m r b h]
    exact hb

theorem step_congr (rl : RateLimiter) (env : RateEnv) (m1 m2 : ClientMap) (r : Request)
    (h : m1 (env.getRealIP r) = m2 (env.getRealIP r)) :
    (rl.RateLimitMiddleware env m1 r).2 = (rl.RateLimitMiddleware env m2 r).2
      ∧ (rl.RateLimitMiddleware env m1 r).1 (env.getRealIP r)
        = (rl.RateLimitMiddleware env m2 r).1 (env.getRealIP r) := by
  unfold RateLimiter.RateLimitMiddleware
  by_cases hmode : rl.RedisBased = true
  · simp only [hmode, if_true]
    split <;> simp [h]
  · simp only [hmode, Bool.false_eq_true, if_false, h]
    split <;> simp

theorem served_own_history (rl : RateLimiter) (ip : Str) :
    ∀ (reqs : List (RateEnv × Request)) (m1 m2 : ClientMap), m1 ip = m2 ip →
      serveAll rl m1 (reqs.filter (fun p => p.1.getRealIP p.2 = ip))
        = ((served rl m2 reqs).filter (fun q => q.1.1.getRealIP q.1.2 = ip)).map Prod.snd := by
  intro reqs
  induction reqs with
  | nil => intro m1 m2 _; rfl
  | cons p rest ih =>
    intro m1 m2 h
    by_cases hp : p.1.getRealIP p.2 = ip
    · have h12 : m1 (p.1.getRealIP p.2) = m2 (p.1.getRealIP p.2) := by rw [hp]; exact h
      have hc := step_congr rl p.1 m1 m2 p.2 h12
      rw [hp] at hc
      have := ih _ _ hc.2
      simp only [served] at this
      simp [served, serveAll, List.filter_cons, hp, hc.1, this]
    · have hne : ip ≠ p.1.getRealIP p.2 := fun h2 => hp h2.symm
      have h2 : m1 ip = (rl.RateLimitMiddleware p.1 m2 p.2).1 ip := by
        rw [step_other_ip rl p.1 m2 p.2 ip hne]; exact h
      have := ih _ _ h2
      simp only [served] at this
      simp [served, serveAll, List.filter_cons, hp, this]

/-- C19: handling a request of client IP a leaves the entry of every other IP
as it was and removes no entry; the outcomes that the requests of one IP get
in a sequence are the outcomes they get when they are served alone, from any
map with the same entry for that IP. -/
theorem local_frame_and_own_history (rl : RateLimiter) (env : RateEnv) (m : ClientMap)
    (r : Request) :
    (∀ b, b ≠ env.getRealIP r → (rl.RateLimitMiddleware env m r).1 b = m b)
      ∧ (∀ b, m b ≠ none → (rl.RateLimitMiddleware env m r).1 b ≠ none)
      ∧ (∀ (ip : Str) (reqs : List (RateEnv × Request)) (m1 : ClientMap), m1 ip = m ip →
        serveAll rl m1 (reqs.filter (fun p => p.1.getRealIP p.2 = ip))
          = ((served rl m reqs).filter (fun q => q.1.1.getRealIP q.1.2 = ip)).map Prod.snd) :=
  ⟨step_other_ip rl env m r, step_keeps_entries rl env m r,
    fun ip reqs m1 h => served_own_history rl ip reqs m1 m h⟩

/-- Witness of C19: a request of client "1" on a map that holds an entry for
client "2"; and client "1" served among requests of client "2". -/
theorem local_frame_and_own_history_witness :
    (demoLimiter.RateLimitMiddleware (demoEnv 5)
          (fun ip => if ip = [50] then some ⟨2, 60⟩ else none) (demoRequest [49])).1 [50]
        = some ⟨2, 60⟩
      ∧ (demoLimiter.RateLimitMiddleware (demoEnv 5)
          (fun ip => if ip = [50] then some ⟨2, 60⟩ else none) (demoRequest [49])).1 [50] ≠ none
      ∧ serveAll demoLimiter emptyClientMap
          ([(demoEnv 0, demoRequest [49]), (demoEnv 1, demoRequest [50]),
            (demoEnv 2, demoRequest [49]), (demoEnv 3, demoRequest [49])].filter
            (fun p => p.1.getRealIP p.2 = [49]))
        = ((served demoLimiter (fun ip => if ip = [50] then some ⟨2, 60⟩ else none)
            [(demoEnv 0, demoRequest [49]), (demoEnv 1, demoRequest [50]),
              (demoEnv 2, demoRequest [49]), (demoEnv 3, demoRequest [49])]).filter
            (fun q => q.1.1.getRealIP q.1.2 = [49])).map Prod.snd :=
  ⟨(local_frame_and_own_history demoLimiter (demoEnv 5)
      (fun ip => if ip = [50] then some ⟨2, 60⟩ else none) (demoRequest [49])).1 [50]
      (by decide),
    (local_frame_and_own_history demoLimiter (demoEnv 5)
      (fun ip => if ip = [50] then some ⟨2, 60⟩ else none) (demoRequest [49])).2.1 [50]
      (by decide),
    (local_frame_and_own_history demoLimiter (demoEnv 5)
      (fun ip => if ip = [50] then some ⟨2, 60⟩ else none) (demoRequest [49])).2.2 [49]
      [(demoEnv 0, demoRequest [49]), (demoEnv 1, demoRequest [50]),
        (demoEnv 2, demoRequest [49]), (demoEnv 3, demoRequest [49])] emptyClientMap
      (by decide)⟩

/-! ## Theorems: injected fields of JwtAuth.AuthMiddleware -/

theorem values_injectHeaders_other (authResp : AuthResponse) (k : Str) :
    ∀ (hs : List (Str × Str)) (h : Header),
      k ∉ hs.map (fun kv => CanonicalMIMEHeaderKey kv.2) →
      Header.values (injectHeaders hs authResp h) k = Header.values h k := by
  intro hs
  induction hs with
  | nil => intro h _; rfl
  | cons kv hs ih =>
    intro h hd
    simp only [List.map_cons, List.mem_cons, not_or] at hd
    have hunf : injectHeaders (kv :: hs) authResp h
        = injectHeaders hs authResp (Header.Set h kv.2 (Header.Get authResp.Header kv.1)) := rfl
    rw [hunf, ih _ hd.2]
    simp [Header.values, Header.Set, lookup_mapSet_ne _ _ _ _ hd.1]

theorem values_injectHeaders (authResp : AuthResponse) :
    ∀ (hs : List (Str × Str)) (h : Header),
      (hs.map (fun kv => CanonicalMIMEHeaderKey kv.2)).Nodup →
      ∀ kv ∈ hs, Header.values (injectHeaders hs authResp h) (CanonicalMIMEHeaderKey kv.2)
        = [Header.Get authResp.Header kv.1] := by
  intro hs
  induction hs with
  | nil => intro h _ kv hkv; simp at hkv
  | cons e hs ih =>
    intro h hnd kv hkv
    simp only [List.map_cons, List.nodup_cons] at hnd
    have hunf : injectHeaders (e :: hs) authResp h
        = injectHeaders hs authResp (Header.Set h e.2 (Header.Get authResp.Header e.1)) := rfl
    rw [hunf]
    rcases List.mem_cons.1 hkv with rfl | hin
    · rw [values_injectHeaders_other authResp _ hs _ hnd.1]
      simp [Header.values, Header.Set, lookup_mapSet_self]
    · exact ih _ hnd.2 kv hin

theorem forwarded_header_values (jwtAuth : JwtAuth) (authResp : AuthResponse) (r : Request)
    (hs : List (Str × Str)) (hhs : jwtAuth.Headers = some hs)
    (hnd : (hs.map (fun kv => CanonicalMIMEHeaderKey kv.2)).Nodup) (kv : Str × Str)
    (hkv : kv ∈ hs) :
    Header.values (forwardedRequest jwtAuth authResp r).Header (CanonicalMIMEHeaderKey kv.2)
      = [Header.Get authResp.Header kv.1] := by
  simp only [forwardedRequest, hhs]
  exact values_injectHeaders authResp hs r.Header hnd kv hkv

theorem forwarded_query_values (jwtAuth : JwtAuth) (authResp : AuthResponse) (r : Request)
    (ps : List (Str × Str)) (hps : jwtAuth.Params = some ps) (hnd : (ps.map Prod.snd).Nodup)
    (kv : Str × Str) (hkv : kv ∈ ps) :
    queryValues (forwardedRequest jwtAuth authResp r).RawQuery kv.2
      = [Header.Get authResp.Header kv.1] := by
  have hraw : (forwardedRequest jwtAuth authResp r).RawQuery
      = Values.Encode (injectParams ps authResp (ParseQuery r.RawQuery)) := by
    simp only [forwardedRequest, hps]
    cases jwtAuth.Headers <;> rfl
  rw [hraw, queryValues_Encode _ _ (nodup_injectParams authResp ps _ (nodup_ParseQuery r.RawQuery)),
    lookup_injectParams authResp ps _ hnd kv hkv]
  rfl

/-- C18, as stated, fails for headers: the destinations "x-dest" and "X-Dest"
are distinct names.  With the authentication response A: 1, B: 2 and the map
A -> x-dest, B -> X-Dest, two requests that differ only in the x-dest value the
client sent ("c1", "c2") both reach `next` with the single value 2 for that
header, which is the value of B and not the value 1 of its source A. -/
theorem jwt_noninterference_case_collision :
    ([(ascii "A", ascii "x-dest"), (ascii "B", ascii "X-Dest")].map Prod.snd).Nodup
      ∧ Header.Get [(ascii "A", [ascii "1"]), (ascii "B", [ascii "2"])] (ascii "A") = ascii "1"
      ∧ ((demoJwt (some [(ascii "A", ascii "x-dest"), (ascii "B", ascii "X-Dest")])
            none).AuthMiddleware
          (demoJwtEnv (some ⟨200, [(ascii "A", [ascii "1"]), (ascii "B", [ascii "2"])]⟩))
          (demoGet [] [(ascii "X-Dest", [ascii "c1"])])).next.map
          (fun r1 => Header.values r1.Header (CanonicalMIMEHeaderKey (ascii "x-dest")))
        = [[ascii "2"]]
      ∧ ((demoJwt (some [(ascii "A", ascii "x-dest"), (ascii "B", ascii "X-Dest")])
            none).AuthMiddleware
          (demoJwtEnv (some ⟨200, [(ascii "A", [ascii "1"]), (ascii "B", [ascii "2"])]⟩))
          (demoGet [] [(ascii "X-Dest", [ascii "c2"])])).next.map
          (fun r1 => Header.values r1.Header (CanonicalMIMEHeaderKey (ascii "x-dest")))
        = [[ascii "2"]] := by
  decide

/-- C18, amended: for one authentication response (status 200) and two
requests that both reach the success path, whatever values the client sent:
for a Headers map whose destinations have pairwise distinct canonical keys,
each destination header has in both forwarded requests the single value that
the source header has in the authentication response; for a Params map with
pairwise distinct parameter names, each destination parameter has that single
value in both forwarded queries.  `Header.Get` is the empty string when the
response lacks the source header. -/
theorem jwt_injected_fields_noninterference (jwtAuth : JwtAuth) (env : JwtEnv)
    (r1 r2 : Request) (authURL : Str) (authResp : AuthResponse)
    (hreq1 : ∀ h ∈ jwtAuth.RequiredHeaders, Header.Get r1.Header h ≠ [])
    (hreq2 : ∀ h ∈ jwtAuth.RequiredHeaders, Header.Get r2.Header h ≠ [])
    (hurl : env.parseURL jwtAuth.AuthURL = some authURL) (hnew : env.NewRequest authURL = true)
    (hdo1 : env.Do (authRequest env authURL r1) = some authResp)
    (hdo2 : env.Do (authRequest env authURL r2) = some authResp)
    (hok : authResp.StatusCode = 200) :
    (∀ hs, jwtAuth.Headers = some hs →
        (hs.map (fun kv => CanonicalMIMEHeaderKey kv.2)).Nodup → ∀ kv ∈ hs,
        (jwtAuth.AuthMiddleware env r1).next.map
            (fun r => Header.values r.Header (CanonicalMIMEHeaderKey kv.2))
          = [[Header.Get authResp.Header kv.1]]
        ∧ (jwtAuth.AuthMiddleware env r2).next.map
            (fun r => Header.values r.Header (CanonicalMIMEHeaderKey kv.2))
          = [[Header.Get authResp.Header kv.1]])
      ∧ (∀ ps, jwtAuth.Params = some ps → (ps.map Prod.snd).Nodup → ∀ kv ∈ ps,
        (jwtAuth.AuthMiddleware env r1).next.map (fun r => queryValues r.RawQuery kv.2)
          = [[Header.Get authResp.Header kv.1]]
        ∧ (jwtAuth.AuthMiddleware env r2).next.map (fun r => queryValues r.RawQuery kv.2)
          = [[Header.Get authResp.Header kv.1]])
      ∧ (∀ k, Header.values authResp.Header (CanonicalMIMEHeaderKey k) = [] →
        Header.Get authResp.Header k = []) := by
  rw [jwt_success jwtAuth env r1 authURL authResp hreq1 hurl hnew hdo1 hok,
    jwt_success jwtAuth env r2 authURL authResp hreq2 hurl hnew hdo2 hok]
  refine ⟨?_, ?_, ?_⟩
  · intro hs hhs hnd kv hkv
    simp only [List.map_cons, List.map_nil]
    rw [forwarded_header_values jwtAuth authResp r1 hs hhs hnd kv hkv,
      forwarded_header_values jwtAuth authResp r2 hs hhs hnd kv hkv]
    exact ⟨rfl, rfl⟩
  · intro ps hps hnd kv hkv
    simp only [List.map_cons, List.map_nil]
    rw [forwarded_query_values jwtAuth authResp r1 ps hps hnd kv hkv,
      forwarded_query_values jwtAuth authResp r2 ps hps hnd kv hkv]
    exact ⟨rfl, rfl⟩
  · intro k hk
    simp [Header.Get, hk]

/-- Witness of C18: the clients send X-Forwarded-User: root, role=admin and
X-Forwarded-User: 7, role=guest; both reach `next` with X-Forwarded-User: 42
and an empty role. -/
theorem jwt_injected_fields_noninterference_witness :
    ((demoInject.AuthMiddleware (demoJwtEnv (some demoInjectResp))
            (demoClient (ascii "root") (ascii "admin"))).next.map
            (fun r => Header.values r.Header (CanonicalMIMEHeaderKey (ascii "X-Forwarded-User")))
          = [[Header.Get demoInjectResp.Header (ascii "X-User-Id")]]
        ∧ (demoInject.AuthMiddleware (demoJwtEnv (some demoInjectResp))
            (demoClient (ascii "7") (ascii "guest"))).next.map
            (fun r => Header.values r.Header (CanonicalMIMEHeaderKey (ascii "X-Forwarded-User")))
          = [[Header.Get demoInjectResp.Header (ascii "X-User-Id")]])
      ∧ ((demoInject.AuthMiddleware (demoJwtEnv (some demoInjectResp))
            (demoClient (ascii "root") (ascii "admin"))).next.map
            (fun r => queryValues r.RawQuery (ascii "role"))
          = [[Header.Get demoInjectResp.Header (ascii "X-Role")]]
        ∧ (demoInject.AuthMiddleware (demoJwtEnv (some demoInjectResp))
            (demoClient (ascii "7") (ascii "guest"))).next.map
            (fun r => queryValues r.RawQuery (ascii "role"))
          = [[Header.Get demoInjectResp.Header (ascii "X-Role")]])
      ∧ Header.Get demoInjectResp.Header (ascii "X-Role") = [] :=
  ⟨(jwt_injected_fields_noninterference demoInject (demoJwtEnv (some demoInjectResp))
      (demoClient (ascii "root") (ascii "admin")) (demoClient (ascii "7") (ascii "guest"))
      (ascii "http://auth") demoInjectResp (by decide) (by decide) rfl rfl rfl rfl rfl).1
      [(ascii "X-User-Id", ascii "X-Forwarded-User")] rfl (by decide)
      (ascii "X-User-Id", ascii "X-Forwarded-User") (by decide),
    (jwt_injected_fields_noninterference demoInject (demoJwtEnv (some demoInjectResp))
      (demoClient (ascii "root") (ascii "admin")) (demoClient (ascii "7") (ascii "guest"))
      (ascii "http://auth") demoInjectResp (by decide) (by decide) rfl rfl rfl rfl rfl).2.1
      [(ascii "X-Role", ascii "role")] rfl (by decide) (ascii "X-Role", ascii "role")
      (by decide),
    (jwt_injected_fields_noninterference demoInject (demoJwtEnv (some demoInjectResp))
      (demoClient (ascii "root") (ascii "admin")) (demoClient (ascii "7") (ascii "guest"))
      (ascii "http://auth") demoInjectResp (by decide) (by decide) rfl rfl rfl rfl rfl).2.2
      (ascii "X-Role") (by decide)⟩

/-! ## Lemmas: admissions inside an interval -/

theorem admittedIn_cons (rl : RateLimiter) (ip : Str) (a b : Int) (m : ClientMap)
    (p : RateEnv × Request) (rest : List (RateEnv × Request)) :
    admittedIn rl ip a b m (p :: rest)
      = (if p.1.getRealIP p.2 = ip ∧ a ≤ p.1.nowCheck ∧ p.1.nowCheck ≤ b
            ∧ (rl.RateLimitMiddleware p.1 m p.2).2.out.next ≠ [] then 1 else 0)
        + admittedIn rl ip a b (rl.RateLimitMiddleware p.1 m p.2).1 rest := rfl

theorem admittedIn_skip (rl : RateLimiter) (ip : Str) (a b : Int) (m : ClientMap)
    (p : RateEnv × Request) (rest : List (RateEnv × Request))
    (h : ¬ (p.1.getRealIP p.2 = ip ∧ a ≤ p.1.nowCheck ∧ p.1.nowCheck ≤ b
      ∧ (rl.RateLimitMiddleware p.1 m p.2).2.out.next ≠ [])) :
    admittedIn rl ip a b m (p :: rest)
      = admittedIn rl ip a b (rl.RateLimitMiddleware p.1 m p.2).1 rest := by
  rw [admittedIn_cons, if_neg h, Nat.zero_add]

theorem admittedIn_le_succ (rl : RateLimiter) (ip : Str) (a b : Int) (m : ClientMap)
    (p : RateEnv × Request) (rest : List (RateEnv × Request)) :
    admittedIn rl ip a b m (p :: rest)
      ≤ 1 + admittedIn rl ip a b (rl.RateLimitMiddleware p.1 m p.2).1 rest := by
  rw [admittedIn_cons]
  split <;> omega

theorem readings_mem (q : RateEnv × Request) :
    ∀ reqs : List (RateEnv × Request), q ∈ reqs →
      q.1.nowCheck ∈ readings reqs ∧ q.1.nowCreate ∈ readings reqs := by
  intro reqs
  induction reqs with
  | nil => intro h; simp at h
  | cons p rest ih =>
    intro h
    rcases List.mem_cons.1 h with rfl | hin
    · simp [readings]
    · have := ih hin
      simp [readings, this.1, this.2]

theorem readings_cons (p : RateEnv × Request) (rest : List (RateEnv × Request))
    (h : (readings (p :: rest)).Pairwise (fun x y => x ≤ y)) :
    p.1.nowCheck ≤ p.1.nowCreate ∧ (∀ q ∈ rest, p.1.nowCheck ≤ q.1.nowCheck)
      ∧ (readings rest).Pairwise (fun x y => x ≤ y) := by
  simp only [readings, List.pairwise_cons] at h
  refine ⟨h.1 _ (by simp), fun q hq => h.1 _ ?_, h.2.2⟩
  simp [(readings_mem q rest hq).1]

theorem admittedIn_after_interval (rl : RateLimiter) (ip : Str) (a b : Int) :
    ∀ (reqs : List (RateEnv × Request)) (m : ClientMap), (∀ p ∈ reqs, b < p.1.nowCheck) →
      admittedIn rl ip a b m reqs = 0 := by
  intro reqs
  induction reqs with
  | nil => intro m _; rfl
  | cons p rest ih =>
    intro m h
    have hp := h p (by simp)
    rw [admittedIn_skip rl ip a b m p rest (by intro hc; omega)]
    exact ih _ (fun q hq => h q (by simp [hq]))

theorem rejected_next (o : RateOutcome) (h : IsRejected o) : o.out.next = [] := h.2.1

/-- Inside a window that ends after the interval, at most `N - k` more requests
of the client are admitted. -/
theorem admittedIn_last_window (rl : RateLimiter) (hmode : rl.RedisBased = false) (ip : Str)
    (a b : Int) :
    ∀ (reqs : List (RateEnv × Request)) (m : ClientMap) (k E : Int),
      m ip = some ⟨k, E⟩ → b ≤ E → (readings reqs).Pairwise (fun x y => x ≤ y) →
      (admittedIn rl ip a b m reqs : Int) ≤ max (rl.Requests - k) 0 := by
  intro reqs
  induction reqs with
  | nil => intro m k E _ _ _; simp [admittedIn]
  | cons p rest ih =>
    intro m k E hm hE hmono
    obtain ⟨_, hrest, hmono2⟩ := readings_cons p rest hmono
    by_cases hp : p.1.getRealIP p.2 = ip
    · have hm1 : m (p.1.getRealIP p.2) = some ⟨k, E⟩ := by rw [hp]; exact hm
      by_cases hc : p.1.nowCheck ≤ E
      · have hstep := step_in_window rl p.1 m p.2 ⟨k, E⟩ hmode hm1 hc
        have hm2 : (rl.RateLimitMiddleware p.1 m p.2).1 ip = some ⟨k + 1, E⟩ := by
          rw [hstep.1, hp]; simp
        have hih := ih _ (k + 1) E hm2 hE hmono2
        by_cases hk : k + 1 ≤ rl.Requests
        · have := admittedIn_le_succ rl ip a b m p rest
          omega
        · have hrej := rejected_next _ (hstep.2.2 (by simpa using hk))
          rw [admittedIn_skip rl ip a b m p rest (by simp [hrej])]
          omega
      · have hlate : ∀ q ∈ rest, b < q.1.nowCheck := fun q hq => by
          have := hrest q hq
          omega
        rw [admittedIn_skip rl ip a b m p rest (by intro hcond; omega),
          admittedIn_after_interval rl ip a b rest _ hlate]
        simp
    · have hne : ip ≠ p.1.getRealIP p.2 := fun h2 => hp h2.symm
      rw [admittedIn_skip rl ip a b m p rest (by simp [hp])]
      exact ih _ k E (by rw [step_other_ip rl p.1 m p.2 ip hne]; exact hm) hE hmono2

/-- From a window that was open when the interval began: what is left of it,
and one more window. -/
theorem admittedIn_first_window (rl : RateLimiter) (hmode : rl.RedisBased = false)
    (hN : 1 ≤ rl.Requests) (ip : Str) (a b : Int) (hab : b ≤ a + rl.Window) :
    ∀ (reqs : List (RateEnv × Request)) (m : ClientMap) (k E : Int),
      m ip = some ⟨k, E⟩ → (∀ p ∈ reqs, a ≤ p.1.nowCheck) →
      (readings reqs).Pairwise (fun x y => x ≤ y) →
      (admittedIn rl ip a b m reqs : Int) ≤ max (rl.Requests - k) 0 + rl.Requests := by
  intro reqs
  induction reqs with
  | nil => intro m k E _ _ _; simp [admittedIn]; omega
  | cons p rest ih =>
    intro m k E hm hafter hmono
    obtain ⟨hcc, _, hmono2⟩ := readings_cons p rest hmono
    have hafter2 : ∀ q ∈ rest, a ≤ q.1.nowCheck := fun q hq => hafter q (by simp [hq])
    have hpa := hafter p (by simp)
    by_cases hp : p.1.getRealIP p.2 = ip
    · have hm1 : m (p.1.getRealIP p.2) = some ⟨k, E⟩ := by rw [hp]; exact hm
      by_cases hc : p.1.nowCheck ≤ E
      · have hstep := step_in_window rl p.1 m p.2 ⟨k, E⟩ hmode hm1 hc
        have hm2 : (rl.RateLimitMiddleware p.1 m p.2).1 ip = some ⟨k + 1, E⟩ := by
          rw [hstep.1, hp]; simp
        have hih := ih _ (k + 1) E hm2 hafter2 hmono2
        by_cases hk : k + 1 ≤ rl.Requests
        · have := admittedIn_le_succ rl ip a b m p rest
          omega
        · have hrej := rejected_next _ (hstep.2.2 (by simpa using hk))
          rw [admittedIn_skip rl ip a b m p rest (by simp [hrej])]
          omega
      · have hstep := step_fresh rl p.1 m p.2 hmode hN
          (Or.inr ⟨⟨k, E⟩, hm1, by simpa using hc⟩)
        have hm2 : (rl.RateLimitMiddleware p.1 m p.2).1 ip
            = some ⟨1, p.1.nowCreate + rl.Window⟩ := by
          rw [hstep, hp]; simp
        have hlast := admittedIn_last_window rl hmode ip a b rest _ 1 _ hm2 (by omega) hmono2
        have := admittedIn_le_succ rl ip a b m p rest
        omega
    · have hne : ip ≠ p.1.getRealIP p.2 := fun h2 => hp h2.symm
      rw [admittedIn_skip rl ip a b m p rest (by simp [hp])]
      exact ih _ k E (by rw [step_other_ip rl p.1 m p.2 ip hne]; exact hm) hafter2 hmono2

theorem step_count_nonneg (rl : RateLimiter) (hmode : rl.RedisBased = false)
    (hN : 1 ≤ rl.Requests) (env : RateEnv) (m : ClientMap) (r : Request) (ip : Str)
    (h : CountNonneg m ip) : CountNonneg (rl.RateLimitMiddleware env m r).1 ip := by
  by_cases hp : ip = env.getRealIP r
  · subst hp
    rcases h with h0 | ⟨c, hc, hk⟩
    · rw [step_fresh rl env m r hmode hN (Or.inl h0)]
      exact Or.inr ⟨⟨1, env.nowCreate + rl.Window⟩, by simp, by simp⟩
    · by_cases hexp : env.nowCheck ≤ c.ExpiresAt
      · rw [(step_in_window rl env m r c hmode hc hexp).1]
        exact Or.inr ⟨⟨c.RequestCount + 1, c.ExpiresAt⟩, by simp, by simp; omega⟩
      · rw [step_fresh rl env m r hmode hN (Or.inr ⟨c, hc, by simpa using hexp⟩)]
        exact Or.inr ⟨⟨1, env.nowCreate + rl.Window⟩, by simp, by simp⟩
  · unfold CountNonneg
    rw [step_other_ip rl env m r ip hp]
    exact h

theorem admittedIn_le_two_windows (rl : RateLimiter) (hmode : rl.RedisBased = false)
    (hN : 1 ≤ rl.Requests) (ip : Str) (a b : Int) (hab : b ≤ a + rl.Window) :
    ∀ (reqs : List (RateEnv × Request)) (m : ClientMap), CountNonneg m ip →
      (readings reqs).Pairwise (fun x y => x ≤ y) →
      (admittedIn rl ip a b m reqs : Int) ≤ 2 * rl.Requests := by
  intro reqs
  induction reqs with
  | nil => intro m _ _; simp [admittedIn]; omega
  | cons p rest ih =>
    intro m hm hmono
    obtain ⟨hcc, hrest, hmono2⟩ := readings_cons p rest hmono
    have hnext := step_count_nonneg rl hmode hN p.1 m p.2 ip hm
    by_cases hin : p.1.getRealIP p.2 = ip ∧ a ≤ p.1.nowCheck ∧ p.1.nowCheck ≤ b
    · obtain ⟨hp, hpa, hpb⟩ := hin
      have hafter : ∀ q ∈ rest, a ≤ q.1.nowCheck := fun q hq => by
        have := hrest q hq
        omega
      have hsucc := admittedIn_le_succ rl ip a b m p rest
      have hfresh : ∀ (hcase : m (p.1.getRealIP p.2) = none
          ∨ ∃ c, m (p.1.getRealIP p.2) = some c ∧ p.1.nowCheck > c.ExpiresAt),
          (admittedIn rl ip a b m (p :: rest) : Int) ≤ 2 * rl.Requests := by
        intro hcase
        have hstep := step_fresh rl p.1 m p.2 hmode hN hcase
        have hm2 : (rl.RateLimitMiddleware p.1 m p.2).1 ip
            = some ⟨1, p.1.nowCreate + rl.Window⟩ := by
          rw [hstep, hp]; simp
        have hlast := admittedIn_last_window rl hmode ip a b rest _ 1 _ hm2 (by omega) hmono2
        omega
      rcases hm with h0 | ⟨c, hc, hk⟩
      · exact hfresh (Or.inl (by rw [hp]; exact h0))
      · have hm1 : m (p.1.getRealIP p.2) = some c := by rw [hp]; exact hc
        by_cases hexp : p.1.nowCheck ≤ c.ExpiresAt
        · have hstep := step_in_window rl p.1 m p.2 c hmode hm1 hexp
          have hm2 : (rl.RateLimitMiddleware p.1 m p.2).1 ip
              = some ⟨c.RequestCount + 1, c.ExpiresAt⟩ := by
            rw [hstep.1, hp]; simp
          have hfirst := admittedIn_first_window rl hmode hN ip a b hab rest _ _ _ hm2 hafter
            hmono2
          by_cases hk2 : c.RequestCount + 1 ≤ rl.Requests
          · omega
          · have hrej := rejected_next _ (hstep.2.2 (by simpa using hk2))
            rw [admittedIn_skip rl ip a b m p rest (by simp [hrej])]
            omega
        · exact hfresh (Or.inr ⟨c, hm1, by simpa using hexp⟩)
    · rw [admittedIn_skip rl ip a b m p rest (fun hcond => hin ⟨hcond.1, hcond.2.1, hcond.2.2.1⟩)]
      exact ih _ hnext hmono2

/-! ## Theorems: admissions inside an interval -/

/-- C17: local mode, limit N >= 1, requests served one after the other from
the empty ClientMap under a clock that never goes back: in any interval from
`a` to `b` of length at most Window, at most 2 * N requests of one client IP
are admitted (the interval meets at most two windows of that client). -/
theorem local_at_most_twice_limit (rl : RateLimiter) (hmode : rl.RedisBased = false)
    (hN : 1 ≤ rl.Requests) (ip : Str) (a b : Int) (hab : b - a ≤ rl.Window)
    (reqs : List (RateEnv × Request))
    (hclock : (readings reqs).Pairwise (fun x y => x ≤ y)) :
    (admittedIn rl ip a b emptyClientMap reqs : Int) ≤ 2 * rl.Requests :=
  admittedIn_le_two_windows rl hmode hN ip a b (by omega) reqs emptyClientMap (Or.inl rfl) hclock

/-- Witness of C17: limit 2, window 60, requests at 0, 60, 61, 61 and 62; the
interval from 1 to 61 holds three admitted requests. -/
theorem local_at_most_twice_limit_witness :
    (readings [(demoEnv 0, demoRequest [49]), (demoEnv 60, demoRequest [49]),
        (demoEnv 61, demoRequest [49]), (demoEnv 61, demoRequest [49]),
        (demoEnv 62, demoRequest [49])]).Pairwise (fun x y => x ≤ y)
      ∧ admittedIn demoLimiter [49] 1 61 emptyClientMap
          [(demoEnv 0, demoRequest [49]), (demoEnv 60, demoRequest [49]),
            (demoEnv 61, demoRequest [49]), (demoEnv 61, demoRequest [49]),
            (demoEnv 62, demoRequest [49])] = 3
      ∧ (admittedIn demoLimiter [49] 1 61 emptyClientMap
          [(demoEnv 0, demoRequest [49]), (demoEnv 60, demoRequest [49]),
            (demoEnv 61, demoRequest [49]), (demoEnv 61, demoRequest [49]),
            (demoEnv 62, demoRequest [49])] : Int) ≤ 2 * 2 :=
  ⟨by decide, by decide,
    local_at_most_twice_limit demoLimiter rfl (by decide) [49] 1 61 (by decide)
      [(demoEnv 0, demoRequest [49]), (demoEnv 60, demoRequest [49]),
        (demoEnv 61, demoRequest [49]), (demoEnv 61, demoRequest [49]),
        (demoEnv 62, demoRequest [49])] (by decide)⟩

/-! ## Lemmas: concurrent runs of the local limiter -/

theorem handler_eq_sections (rl : RateLimiter) (hmode : rl.RedisBased = false) (env : RateEnv)
    (m : ClientMap) (r : Request) :
    rl.RateLimitMiddleware env m r
      = (lockedSection rl env m r, afterUnlock rl env (lockedSection rl env m r) r) := by
  simp only [RateLimiter.RateLimitMiddleware, hmode, Bool.false_eq_true, if_false, lockedSection,
    afterUnlock, if_true]
  split <;> rfl

theorem lockedSection_other (rl : RateLimiter) (env : RateEnv) (m : ClientMap) (r : Request)
    (b : Str) (hb : b ≠ env.getRealIP r) : lockedSection rl env m r b = m b := by
  simp [lockedSection, hb]

theorem lockedSection_none (rl : RateLimiter) (env : RateEnv) (m : ClientMap) (r : Request)
    (h : m (env.getRealIP r) = none) :
    lockedSection rl env m r (env.getRealIP r) = some ⟨1, env.nowCreate + rl.Window⟩ := by
  simp [lockedSection, h]

theorem lockedSection_in_window (rl : RateLimiter) (env : RateEnv) (m : ClientMap) (r : Request)
    (c : Client) (h : m (env.getRealIP r) = some c) (hc : env.nowCheck ≤ c.ExpiresAt) :
    lockedSection rl env m r (env.getRealIP r) = some ⟨c.RequestCount + 1, c.ExpiresAt⟩ := by
  have hc1 : ¬ (env.nowCheck > c.ExpiresAt) := by omega
  simp [lockedSection, h, hc1]

theorem afterUnlock_cases (rl : RateLimiter) (env : RateEnv) (m : ClientMap) (r : Request)
    (c : Client) (h : m (env.getRealIP r) = some c) :
    (c.RequestCount ≤ rl.Requests → afterUnlock rl env m r = admitted r)
      ∧ (rl.Requests < c.RequestCount → IsRejected (afterUnlock rl env m r)) := by
  constructor
  · intro hle
    have : ¬ (c.RequestCount > rl.Requests) := by omega
    simp [afterUnlock, h, this, admitted]
  · intro hlt
    have : c.RequestCount > rl.Requests := by omega
    simp only [afterUnlock, h, this, if_true, IsRejected]
    split <;> simp [ResponseWriter.setHeader]

theorem countP_set_eq {α : Type} (pr : α → Bool) :
    ∀ (l : List α) (i : Nat) (x y : α), l[i]? = some x →
      (l.set i y).countP pr + (if pr x then 1 else 0)
        = l.countP pr + (if pr y then 1 else 0)
  | [], i, x, y, h => by simp at h
  | z :: l, 0, x, y, h => by
    simp only [List.getElem?_cons_zero, Option.some.injEq] at h
    subst h
    simp only [List.set_cons_zero, List.countP_cons]
    omega
  | z :: l, i + 1, x, y, h => by
    simp only [List.getElem?_cons_succ] at h
    have := countP_set_eq pr l i x y h
    simp only [List.set_cons_succ, List.countP_cons]
    omega

theorem countP_admitted_waiting (l : List Phase) :
    l.countP Phase.isAdmitted + l.countP Phase.isWaiting ≤ l.length := by
  induction l with
  | nil => simp
  | cons ph l ih =>
    simp only [List.countP_cons, List.length_cons]
    cases ph <;> simp [Phase.isAdmitted, Phase.isWaiting] <;> (try split) <;> omega

theorem lt_length_of_getElem? {α : Type} (l : List α) (i : Nat) (x : α) (h : l[i]? = some x) :
    i < l.length := by
  by_contra hc
  rw [List.getElem?_eq_none (by omega)] at h
  cases h

theorem concStep_waiting_inv (rl : RateLimiter) (reqs : List (RateEnv × Request)) (ip : Str)
    (hip : ∀ p ∈ reqs, p.1.getRealIP p.2 = ip)
    (hwin : ∀ p ∈ reqs, ∀ q ∈ reqs, p.1.nowCheck ≤ q.1.nowCreate + rl.Window)
    (s : Conc) (i : Nat) (p : RateEnv × Request) (hr : reqs[i]? = some p)
    (hph : s.phases[i]? = some Phase.waiting) (h : ConcInv rl reqs ip s) :
    ConcInv rl reqs ip
      { m := lockedSection rl p.1 s.m p.2, phases := s.phases.set i Phase.counted } := by
  have hp := List.getElem?_mem hr
  have hpip := hip p hp
  have hw := countP_set_eq Phase.isWaiting s.phases i Phase.waiting Phase.counted hph
  have ha := countP_set_eq Phase.isAdmitted s.phases i Phase.waiting Phase.counted hph
  simp only [Phase.isWaiting, Phase.isAdmitted, if_true, Bool.false_eq_true, if_false,
    Nat.add_zero] at hw ha
  have hi := lt_length_of_getElem? _ _ _ hph
  refine ⟨?_, ?_, ?_, ?_⟩
  · simp [h.len]
  · right
    rcases h.count with ⟨hall, hnone⟩ | ⟨E, hm, q, hq, hE⟩
    · refine ⟨p.1.nowCreate + rl.Window, ?_, p, hp, rfl⟩
      have := lockedSection_none rl p.1 s.m p.2 (by rw [hpip]; exact hnone)
      rw [hpip] at this
      simp only [this]
      congr 2
      omega
    · refine ⟨E, ?_, q, hq, hE⟩
      have hcheck : p.1.nowCheck ≤ E := by rw [hE]; exact hwin p hp q hq
      have := lockedSection_in_window rl p.1 s.m p.2 _ (by rw [hpip]; exact hm) hcheck
      rw [hpip] at this
      simp only [this]
      congr 2
      omega
  · simp only [ha]
    exact h.adm
  · intro j p1 o hr1 hph1
    by_cases hji : i = j
    · subst hji
      simp only [List.getElem?_set_self hi] at hph1
      cases hph1
    · simp only [List.getElem?_set_ne hji] at hph1
      exact h.fin j p1 o hr1 hph1

theorem concStep_counted_inv (rl : RateLimiter) (hN : 1 ≤ rl.Requests)
    (reqs : List (RateEnv × Request)) (ip : Str)
    (hip : ∀ p ∈ reqs, p.1.getRealIP p.2 = ip)
    (s : Conc) (i : Nat) (p : RateEnv × Request) (hr : reqs[i]? = some p)
    (hph : s.phases[i]? = some Phase.counted) (h : ConcInv rl reqs ip s) :
    ConcInv rl reqs ip
      { m := s.m, phases := s.phases.set i (Phase.finished (afterUnlock rl p.1 s.m p.2)) } := by
  have hp := List.getElem?_mem hr
  have hpip := hip p hp
  have hw := countP_set_eq Phase.isWaiting s.phases i Phase.counted
    (Phase.finished (afterUnlock rl p.1 s.m p.2)) hph
  have ha := countP_set_eq Phase.isAdmitted s.phases i Phase.counted
    (Phase.finished (afterUnlock rl p.1 s.m p.2)) hph
  simp only [Phase.isWaiting, Bool.false_eq_true, if_false, Nat.add_zero] at hw
  have hi := lt_length_of_getElem? _ _ _ hph
  have hbound := countP_admitted_waiting
    (s.phases.set i (Phase.finished (afterUnlock rl p.1 s.m p.2)))
  rw [List.length_set, h.len, hw] at hbound
  have hout : afterUnlock rl p.1 s.m p.2 = admitted p.2
      ∨ (IsRejected (afterUnlock rl p.1 s.m p.2)
        ∧ rl.Requests < (reqs.length : Int) - s.phases.countP Phase.isWaiting) := by
    rcases h.count with ⟨_, hnone⟩ | ⟨E, hm, _⟩
    · left
      simp [afterUnlock, hpip, hnone, admitted]
    · have hc := afterUnlock_cases rl p.1 s.m p.2 _ (by rw [hpip]; exact hm)
      dsimp only at hc
      by_cases hle : (reqs.length : Int) - s.phases.countP Phase.isWaiting ≤ rl.Requests
      · exact Or.inl (hc.1 hle)
      · exact Or.inr ⟨hc.2 (by omega), by omega⟩
  refine ⟨?_, ?_, ?_, ?_⟩
  · simp [h.len]
  · simp only [hw]
    exact h.count
  · rcases hout with hadm | ⟨hrej, hgt⟩
    · by_cases hle : (reqs.length : Int) - s.phases.countP Phase.isWaiting ≤ rl.Requests
      · show ((s.phases.set i (Phase.finished (afterUnlock rl p.1 s.m p.2))).countP
          Phase.isAdmitted : Int) ≤ rl.Requests
        omega
      · rcases h.count with ⟨hall, _⟩ | ⟨E, hm, _⟩
        · show ((s.phases.set i (Phase.finished (afterUnlock rl p.1 s.m p.2))).countP
            Phase.isAdmitted : Int) ≤ rl.Requests
          omega
        · have hc := afterUnlock_cases rl p.1 s.m p.2 _ (by rw [hpip]; exact hm)
          dsimp only at hc
          have hrej := rejected_next _ (hc.2 (by omega))
          rw [hadm] at hrej
          simp [admitted] at hrej
    · have hnext := rejected_next _ hrej
      simp only [Phase.isAdmitted, hnext, ne_eq, not_true_eq_false, decide_False,
        Bool.false_eq_true, if_false, Nat.add_zero] at ha
      show ((s.phases.set i (Phase.finished (afterUnlock rl p.1 s.m p.2))).countP
        Phase.isAdmitted : Int) ≤ rl.Requests
      rw [ha]
      exact h.adm
  · intro j p1 o hr1 hph1
    by_cases hji : i = j
    · subst hji
      simp only [List.getElem?_set_self hi, Option.some.injEq, Phase.finished.injEq] at hph1
      rw [hr] at hr1
      cases hr1
      subst hph1
      rcases hout with hadm | ⟨hrej, _⟩
      · exact Or.inl hadm
      · exact Or.inr hrej
    · simp only [List.getElem?_set_ne hji] at hph1
      exact h.fin j p1 o hr1 hph1

theorem concStep_inv (rl : RateLimiter) (hN : 1 ≤ rl.Requests)
    (reqs : List (RateEnv × Request)) (ip : Str)
    (hip : ∀ p ∈ reqs, p.1.getRealIP p.2 = ip)
    (hwin : ∀ p ∈ reqs, ∀ q ∈ reqs, p.1.nowCheck ≤ q.1.nowCreate + rl.Window)
    (s : Conc) (i : Nat) (h : ConcInv rl reqs ip s) :
    ConcInv rl reqs ip (concStep rl reqs s i) := by
  unfold concStep
  rcases hr : reqs[i]? with _ | p
  · exact h
  · rcases hph : s.phases[i]? with _ | ph
    · exact h
    · cases ph with
      | waiting => exact concStep_waiting_inv rl reqs ip hip hwin s i p hr hph h
      | counted => exact concStep_counted_inv rl hN reqs ip hip s i p hr hph h
      | finished o => exact h

theorem foldl_concStep_inv (rl : RateLimiter) (hN : 1 ≤ rl.Requests)
    (reqs : List (RateEnv × Request)) (ip : Str)
    (hip : ∀ p ∈ reqs, p.1.getRealIP p.2 = ip)
    (hwin : ∀ p ∈ reqs, ∀ q ∈ reqs, p.1.nowCheck ≤ q.1.nowCreate + rl.Window) :
    ∀ (sched : List Nat) (s : Conc), ConcInv rl reqs ip s →
      ConcInv rl reqs ip (sched.foldl (concStep rl reqs) s) := by
  intro sched
  induction sched with
  | nil => intro s h; exact h
  | cons i sched ih =>
    intro s h
    exact ih _ (concStep_inv rl hN reqs ip hip hwin s i h)

theorem countP_waiting_init (reqs : List (RateEnv × Request)) :
    (reqs.map (fun _ => Phase.waiting)).countP Phase.isWaiting = reqs.length := by
  induction reqs with
  | nil => rfl
  | cons p rest ih => rw [List.map_cons, List.countP_cons, ih]; simp [Phase.isWaiting]

theorem countP_admitted_init (reqs : List (RateEnv × Request)) :
    (reqs.map (fun _ => Phase.waiting)).countP Phase.isAdmitted = 0 := by
  induction reqs with
  | nil => rfl
  | cons p rest ih => rw [List.map_cons, List.countP_cons, ih]; simp [Phase.isAdmitted]

theorem concInv_init (rl : RateLimiter) (hN : 1 ≤ rl.Requests)
    (reqs : List (RateEnv × Request)) (ip : Str) :
    ConcInv rl reqs ip { m := emptyClientMap, phases := reqs.map (fun _ => Phase.waiting) } := by
  have hw := countP_waiting_init reqs
  have ha := countP_admitted_init reqs
  refine ⟨by simp, Or.inl ⟨hw, rfl⟩, ?_, ?_⟩
  · simp only [ha]
    simp
    omega
  · intro i p o _ hph
    simp only [List.getElem?_map] at hph
    cases h : reqs[i]? <;> simp [h] at hph

/-! ## Theorems: concurrent runs of the local limiter -/

/-- C14: local mode, limit N >= 1, 2N requests of one client IP inside one
window on the empty ClientMap.  Each request takes two atomic steps, its
critical section (lookup, create, increment under the lock) and, after the
unlock, the read of the count of the entry and the comparison with N; the
handler run alone is these two steps in a row.  For every schedule of these
steps that lets all requests finish: at most N requests are admitted, every
request is either admitted or rejected with 429, and the stored count ends at
2N. -/
theorem concurrent_burst_admits_at_most_limit (rl : RateLimiter)
    (hmode : rl.RedisBased = false) (hN : 1 ≤ rl.Requests) (ip : Str)
    (reqs : List (RateEnv × Request)) (hlen : (reqs.length : Int) = 2 * rl.Requests)
    (hip : ∀ p ∈ reqs, p.1.getRealIP p.2 = ip)
    (hwin : ∀ p ∈ reqs, ∀ q ∈ reqs, p.1.nowCheck ≤ q.1.nowCreate + rl.Window)
    (sched : List Nat)
    (hdone : ∀ ph ∈ (concRun rl reqs emptyClientMap sched).phases, ph.isFinished = true) :
    (∀ env m r, rl.RateLimitMiddleware env m r
        = (lockedSection rl env m r, afterUnlock rl env (lockedSection rl env m r) r))
      ∧ ((concRun rl reqs emptyClientMap sched).phases.countP Phase.isAdmitted : Int)
        ≤ rl.Requests
      ∧ (concRun rl reqs emptyClientMap sched).phases.length = reqs.length
      ∧ (∀ (i : Nat) (p : RateEnv × Request) (o : RateOutcome), reqs[i]? = some p →
        (concRun rl reqs emptyClientMap sched).phases[i]? = some (Phase.finished o) →
        o = admitted p.2 ∨ IsRejected o)
      ∧ ∃ E, (concRun rl reqs emptyClientMap sched).m ip = some ⟨2 * rl.Requests, E⟩ := by
  have hinv : ConcInv rl reqs ip (concRun rl reqs emptyClientMap sched) :=
    foldl_concStep_inv rl hN reqs ip hip hwin sched _ (concInv_init rl hN reqs ip)
  refine ⟨handler_eq_sections rl hmode, hinv.adm, hinv.len, hinv.fin, ?_⟩
  have hw : (concRun rl reqs emptyClientMap sched).phases.countP Phase.isWaiting = 0 := by
    rw [List.countP_eq_zero]
    intro ph hph
    have := hdone ph hph
    cases ph with
    | waiting => simp [Phase.isFinished] at this
    | counted => simp [Phase.isWaiting]
    | finished o => simp [Phase.isWaiting]
  rcases hinv.count with ⟨hall, _⟩ | ⟨E, hm, _⟩
  · omega
  · refine ⟨E, ?_⟩
    rw [hm, hw]
    congr 2

/-- Witness of C14: limit 1, two requests, both critical sections before both
reads: the count is 2 at each read and no request is admitted. -/
theorem concurrent_burst_admits_at_most_limit_witness :
    (∀ ph ∈ (concRun ⟨1, 60, false, []⟩
        [(demoEnv 0, demoRequest [49]), (demoEnv 1, demoRequest [49])] emptyClientMap
        [0, 1, 0, 1]).phases, ph.isFinished = true)
      ∧ (concRun ⟨1, 60, false, []⟩
        [(demoEnv 0, demoRequest [49]), (demoEnv 1, demoRequest [49])] emptyClientMap
        [0, 1, 0, 1]).phases.countP Phase.isAdmitted = 0
      ∧ ((concRun ⟨1, 60, false, []⟩
          [(demoEnv 0, demoRequest [49]), (demoEnv 1, demoRequest [49])] emptyClientMap
          [0, 1, 0, 1]).phases.countP Phase.isAdmitted : Int) ≤ 1
      ∧ ∃ E, (concRun ⟨1, 60, false, []⟩
          [(demoEnv 0, demoRequest [49]), (demoEnv 1, demoRequest [49])] emptyClientMap
          [0, 1, 0, 1]).m [49] = some ⟨2 * 1, E⟩ :=
  ⟨by decide, by decide,
    (concurrent_burst_admits_at_most_limit ⟨1, 60, false, []⟩ rfl (by decide) [49]
      [(demoEnv 0, demoRequest [49]), (demoEnv 1, demoRequest [49])] (by decide) (by decide)
      (by decide) [0, 1, 0, 1] (by decide)).2.1,
    (concurrent_burst_admits_at_most_limit ⟨1, 60, false, []⟩ rfl (by decide) [49]
      [(demoEnv 0, demoRequest [49]), (demoEnv 1, demoRequest [49])] (by decide) (by decide)
      (by decide) [0, 1, 0, 1] (by decide)).2.2.2.2⟩

/-! ## Lemmas: the rejections of the two authentication gates -/

theorem basic_rejection_is_envelope (basicAuth : AuthBasic) (r : Request)
    (h : (AuthBasic.AuthMiddleware basicAuth r).next = []) :
    IsEnvelope (AuthBasic.AuthMiddleware basicAuth r).w 401 := by
  unfold AuthBasic.AuthMiddleware at h ⊢
  have e1 : IsEnvelope (((({} : ResponseWriter).setHeader hWWWAuthenticate vBasicRealm).setHeader
      hContentType vApplicationJSON).WriteHeader 401 |>.encode unauthorizedBody) 401 :=
    ⟨by decide, by decide, _, rfl⟩
  have e2 : IsEnvelope ((({} : ResponseWriter).setHeader hContentType
      vApplicationJSON).WriteHeader 401 |>.encode unauthorizedBody) 401 :=
    ⟨by decide, by decide, _, rfl⟩
  by_cases h0 : Header.Get r.Header hAuthorization = []
  · simp only [h0, if_true]
    exact e1
  · by_cases hpre : hasPrefix (Header.Get r.Header hAuthorization) basicPrefix = true
    · cases hdec : DecodeString ((Header.Get r.Header hAuthorization).drop basicPrefix.length) with
      | none =>
        simp only [h0, hpre, hdec, if_false, Bool.not_true, Bool.false_eq_true]
        exact e2
      | some payload =>
        simp only [h0, hpre, hdec, if_false, Bool.not_true, Bool.false_eq_true] at h ⊢
        split
        · exact e1
        · rename_i hc
          rw [if_neg hc] at h
          simp at h
    · simp only [h0, hpre, if_false, Bool.not_false, if_true]
      exact e2

theorem jwt_rejection_is_envelope (jwtAuth : JwtAuth) (env : JwtEnv) (r : Request)
    (h : (jwtAuth.AuthMiddleware env r).next = []) :
    IsEnvelope (jwtAuth.AuthMiddleware env r).w 401
      ∨ IsEnvelope (jwtAuth.AuthMiddleware env r).w 500 := by
  have e500 : IsEnvelope (internalServerError {}) 500 := ⟨by decide, by decide, _, rfl⟩
  have e401 : IsEnvelope (authUnauthorized {}) 401 := ⟨by decide, by decide, _, rfl⟩
  cases hfind : jwtAuth.RequiredHeaders.find? (fun header => Header.Get r.Header header = []) with
  | some x =>
    left
    simp only [JwtAuth.AuthMiddleware, hfind]
    by_cases ho : env.allowedOrigin jwtAuth.Origins (Header.Get r.Header hOrigin) = true
    · simp only [ho, if_true]
      refine ⟨?_, ?_, statusText401, ?_⟩
      · simp only [ResponseWriter.encode, ResponseWriter.write, ResponseWriter.WriteHeader,
          ResponseWriter.setHeader]
        rw [Get_Set_other _ _ _ _ (by decide)]
        decide
      · simp [ResponseWriter.encode, ResponseWriter.write, ResponseWriter.WriteHeader,
          ResponseWriter.setHeader]
      · simp [ResponseWriter.encode, ResponseWriter.write, ResponseWriter.WriteHeader,
          ResponseWriter.setHeader]
    · simp only [ho, Bool.false_eq_true, if_false]
      exact ⟨by decide, by decide, _, rfl⟩
  | none =>
    cases hurl : env.parseURL jwtAuth.AuthURL with
    | none =>
      simp only [JwtAuth.AuthMiddleware, hfind, hurl]
      exact Or.inr e500
    | some authURL =>
      cases hnew : env.NewRequest authURL with
      | false =>
        simp only [JwtAuth.AuthMiddleware, hfind, hurl, hnew, Bool.not_false, if_true]
        exact Or.inr e500
      | true =>
        cases hdo : env.Do (authRequest env authURL r) with
        | none =>
          simp only [JwtAuth.AuthMiddleware, hfind, hurl, hnew, hdo, Bool.not_true,
            Bool.false_eq_true, if_false]
          exact Or.inl e401
        | some authResp =>
          by_cases hok : authResp.StatusCode = 200
          · simp [JwtAuth.AuthMiddleware, hfind, hurl, hnew, hdo, hok] at h
          · simp only [JwtAuth.AuthMiddleware, hfind, hurl, hnew, hdo, Bool.not_true,
              Bool.false_eq_true, if_false, ne_eq, hok, not_false_eq_true, if_true]
            exact Or.inl e401

end Goma
